import Mathlib

/-!
Verification development for cyipopt's `scipy_interface.py`.

The module adapts a scipy-style problem specification (objective, gradient,
Hessian, constraint dicts) to the callback surface expected by the Ipopt
solver.  We shallowly embed the module: numpy arrays of floats become
`List ℚ`, 2-D arrays become `List (List ℚ)`, scipy COO sparse arrays become
a `Coo` structure, Python exceptions become `Except String`, and the
adapter's mutable counters become an explicit state record threaded through
the methods.  External collaborators (the native solver handle and scipy's
generic `minimize`) are modelled as oracle parameters of the driver.
-/

namespace ScipyInterface

/-- Keyword-argument dictionary passed through to user callables. -/
abbrev Kw : Type := List (String × ℚ)

/-- A dense 2-D numpy array of floats. -/
abbrev Mat : Type := List (List ℚ)

/-- A numpy array that is either 1-D or 2-D (a user Jacobian callable may
return either; `np.atleast_2d` normalises the shape). -/
inductive NpArr where
  | one (v : List ℚ)
  | two (m : Mat)

/-- `np.atleast_2d`: a 1-D array of length k becomes a 1 x k matrix. -/
def np_atleast_2d : NpArr → Mat
  | .one v => [v]
  | .two m => m

/-- `np.hstack` on a list of 1-D arrays: concatenation.  numpy raises
`ValueError` when the list is empty. -/
def np_hstack (ls : List (List ℚ)) : Except String (List ℚ) :=
  match ls with
  | [] => .error "ValueError: need at least one array to concatenate"
  | _ => .ok ls.flatten

/-- A scipy COO sparse array: shape, the row/column index arrays and the
data array.  The constructor of `coo_array` guarantees that the three
arrays have the same length; we record that invariant. -/
structure Coo where
  nrows : Nat
  ncols : Nat
  row : List Nat
  col : List Nat
  data : List ℚ
  hrow : row.length = data.length
  hcol : col.length = data.length

/-- A value returned by a constraint Jacobian callable: either a dense
numpy array or a scipy COO sparse array. -/
inductive JacVal where
  | arr (a : NpArr)
  | coo (c : Coo)

/-- A value returned by a constraint function: a plain 1-D array, or (when
the constraint's `jac` flag is the sentinel `True`) a pair of the value
array and the Jacobian. -/
inductive ConResult where
  | plain (v : List ℚ)
  | pair (v : List ℚ) (j : JacVal)

/-- A value returned by the objective callable: a scalar, or (when `jac` is
the sentinel `True`) a pair of the value and the gradient. -/
inductive ObjResult where
  | plain (v : ℚ)
  | pair (v : ℚ) (g : List ℚ)

/-- The `jac` entry of a constraint dict: the key may be absent, `None`,
`False`, `True`, or a callable `jac(x, *args, **kwargs)`. -/
inductive ConJac where
  | absent
  | noneV
  | falseV
  | trueV
  | call (j : List ℚ → List ℚ → Kw → JacVal)

/-- The `jac` argument for the objective: `None`, `True`, a callable, or
(erroneously) `False`. -/
inductive ObjJac where
  | noneV
  | trueV
  | falseV
  | call (j : List ℚ → List ℚ → Kw → List ℚ)

/-- A scipy-style constraint dict: value function, `jac` entry, optional
Hessian `hess(x, lagr, *args, **kwargs)`, type tag (`eq`/`ineq`), extra
positional args and keyword args. -/
structure ConstraintDict where
  cfun : List ℚ → List ℚ → Kw → ConResult
  jac : ConJac
  hess : Option (List ℚ → List ℚ → List ℚ → Kw → Mat)
  ctype : String
  args : List ℚ
  kwargs : Kw

/-- Python truthiness of `con.get('jac', False)`: `False`/`None`/absent are
falsy, `True` and callables are truthy. -/
def ConJac.truthy : ConJac → Bool
  | .absent => false
  | .noneV => false
  | .falseV => false
  | .trueV => true
  | .call _ => true

/-- The identity test `con.get('jac', False) is True`. -/
def ConJac.isTrueLit : ConJac → Bool
  | .trueV => true
  | _ => false

/-- Row-major enumeration `(i, j, 1)` of all entries of a dense matrix:
this is the triple list underlying `coo_array(np.ones_like(M))` (numpy
enumerates nonzero entries of a dense array in C / row-major order, and
every entry of an all-ones array is nonzero). -/
def denseOnesTriples (M : Mat) : List (Nat × Nat × ℚ) :=
  (List.zipWith (fun i r => (List.range r.length).map (fun j => (i, j, (1 : ℚ))))
    (List.range M.length) M).flatten

/-- `coo_array(np.ones_like(np.atleast_2d(...)))` applied to a dense
matrix: every entry is structurally nonzero. -/
def denseOnesCoo (M : Mat) : Coo where
  nrows := M.length
  ncols := (M.headD []).length
  row := (denseOnesTriples M).map (fun t => t.1)
  col := (denseOnesTriples M).map (fun t => t.2.1)
  data := (denseOnesTriples M).map (fun t => t.2.2)
  hrow := by simp
  hcol := by simp

/-- `np.ones((r, c))` as a dense matrix. -/
def onesMat (r c : Nat) : Mat :=
  List.replicate r (List.replicate c (1 : ℚ))

/-- Row indices of a vertical stack of COO blocks, shifted by the
cumulative number of rows of the preceding blocks. -/
def offsetRows : List Coo → Nat → List Nat
  | [], _ => []
  | b :: bs, off => b.row.map (fun i => i + off) ++ offsetRows bs (off + b.nrows)

theorem offsetRows_length (bs : List Coo) (off : Nat) :
    (offsetRows bs off).length = (bs.map (fun b => b.data.length)).sum := by
  induction bs generalizing off with
  | nil => simp [offsetRows]
  | cons b bs ih => simp [offsetRows, ih, b.hrow]

/-- `scipy.sparse.vstack` on a nonempty list of COO blocks; raises when the
blocks do not all have the same number of columns. -/
def cooVstack (blocks : List Coo) : Except String Coo :=
  match blocks with
  | [] => .error "ValueError: need at least one array to concatenate"
  | b0 :: bs =>
    if (b0 :: bs).all (fun b => b.ncols == b0.ncols) then
      .ok { nrows := ((b0 :: bs).map (fun b => b.nrows)).sum
            ncols := b0.ncols
            row := offsetRows (b0 :: bs) 0
            col := ((b0 :: bs).map (fun b => b.col)).flatten
            data := ((b0 :: bs).map (fun b => b.data)).flatten
            hrow := by
              rw [offsetRows_length, List.length_flatten, List.map_map]
              rfl
            hcol := by
              rw [List.length_flatten, List.length_flatten, List.map_map, List.map_map]
              congr 1
              exact List.map_congr_left (fun b _ => b.hcol) }
    else .error "ValueError: incompatible dimensions"

/-- The default finite-difference step `eps = 1e-8`. -/
def eps8 : ℚ := 1 / 100000000

/-- The large sentinel `INF = 1e19` used as the inequality upper bound. -/
def INF19 : ℚ := 10000000000000000000

/-- `x + eps * e_i`: perturb coordinate `i` of `x`. -/
def addEps (x : List ℚ) (i : Nat) (eps : ℚ) : List ℚ :=
  x.set i (x.getD i 0 + eps)

/-- Loop of scipy's `approx_fprime` (forward differences): one evaluation
of `f` per coordinate, after the single base evaluation.  Returns the
result together with the number of calls made to `f`. -/
def afpLoop (x : List ℚ) (f : List ℚ → Except String ℚ) (eps f0 : ℚ) :
    List Nat → Except String (List ℚ) × Nat
  | [] => (.ok [], 0)
  | i :: is =>
    match f (addEps x i eps) with
    | .error e => (.error e, 1)
    | .ok fi =>
      match afpLoop x f eps f0 is with
      | (.error e, n) => (.error e, n + 1)
      | (.ok vs, n) => (.ok (((fi - f0) / eps) :: vs), n + 1)

/-- scipy's `approx_fprime(xk, f, eps)` for a scalar-valued `f`, forward
differences with fixed step `eps`, instrumented with the number of times
the raw callable `f` is evaluated (`f(xk)` once, then once per
coordinate). -/
def approx_fprime_counted (x : List ℚ) (f : List ℚ → Except String ℚ) (eps : ℚ) :
    Except String (List ℚ) × Nat :=
  match f x with
  | .error e => (.error e, 1)
  | .ok f0 =>
    match afpLoop x f eps f0 (List.range x.length) with
    | (r, n) => (r, n + 1)

/-- scipy's `approx_fprime(xk, f, eps)` for a scalar-valued `f`. -/
def approx_fprime (x : List ℚ) (f : List ℚ → Except String ℚ) (eps : ℚ) :
    Except String (List ℚ) :=
  (approx_fprime_counted x f eps).1

/-- Evaluate `f` at each one-coordinate perturbation of `x`. -/
def afpVecLoop (x : List ℚ) (f : List ℚ → Except String (List ℚ)) (eps : ℚ) :
    List Nat → Except String (List (List ℚ))
  | [] => .ok []
  | j :: js =>
    match f (addEps x j eps) with
    | .error e => .error e
    | .ok fj =>
      match afpVecLoop x f eps js with
      | .error e => .error e
      | .ok rest => .ok (fj :: rest)

/-- scipy's `approx_fprime` for a vector-valued `f` (used as the dense
fallback for a constraint without a supplied Jacobian): returns the
forward-difference Jacobian with entry `(i, j)` equal to
`(f(x + eps e_j)_i - f(x)_i) / eps`. -/
def approx_fprime_vec (x : List ℚ) (f : List ℚ → Except String (List ℚ)) (eps : ℚ) :
    Except String Mat :=
  match f x with
  | .error e => .error e
  | .ok f0 =>
    match afpVecLoop x f eps (List.range x.length) with
    | .error e => .error e
    | .ok cols =>
      .ok ((List.range f0.length).map (fun i =>
        (List.range x.length).map (fun j =>
          (((cols.getD j []).getD i 0) - f0.getD i 0) / eps)))

/-- `MemoizeJac(fun).__call__`: the value component of the `(value,
jacobian)` pair the function is required to return.  `MemoizeJac.__call__`
takes only `(x, *args)`, while the wrapper methods call
`fun(x, *args, **kwargs)`, so a nonempty `kwargs` dict raises `TypeError`
at call time before the underlying function is ever evaluated. -/
def memoConVal (cfun : List ℚ → List ℚ → Kw → ConResult)
    (x a : List ℚ) (k : Kw) : Except String (List ℚ) :=
  if k.isEmpty then
    match cfun x a k with
    | .pair v _ => .ok v
    | .plain _ => .error "TypeError: cannot unpack non-sequence"
  else .error "TypeError: MemoizeJac got an unexpected keyword argument"

/-- `MemoizeJac(fun).derivative`: the Jacobian component of the pair.
Like `__call__` it takes only `(x, *args)`, so a nonempty `kwargs` dict
raises `TypeError` at call time. -/
def memoConJac (cfun : List ℚ → List ℚ → Kw → ConResult)
    (x a : List ℚ) (k : Kw) : Except String JacVal :=
  if k.isEmpty then
    match cfun x a k with
    | .pair _ j => .ok j
    | .plain _ => .error "TypeError: cannot unpack non-sequence"
  else .error "TypeError: MemoizeJac got an unexpected keyword argument"

/-- Calling a raw constraint function where a plain value array is
expected; a pair (tuple) result in this position is a caller contract
violation and is modelled as an error. -/
def plainConVal (cfun : List ℚ → List ℚ → Kw → ConResult)
    (x a : List ℚ) (k : Kw) : Except String (List ℚ) :=
  match cfun x a k with
  | .plain v => .ok v
  | .pair _ _ => .error "TypeError: expected an array, got a tuple"

/-- The constraint value function stored by `IpoptProblemWrapper.__init__`:
the raw function, or its `MemoizeJac` wrapper when `jac` is the sentinel
`True`. -/
def resolveConFun (c : ConstraintDict) :
    List ℚ → List ℚ → Kw → Except String (List ℚ) :=
  match c.jac with
  | .trueV => memoConVal c.cfun
  | _ => plainConVal c.cfun

/-- The constraint Jacobian callable stored by
`IpoptProblemWrapper.__init__`: for `jac` absent or `None` the
finite-difference fallback
`lambda x0, *args, **kwargs: approx_fprime(x0, con_fun, eps, *args, **kwargs)`
(scipy's `approx_fprime` does not accept keyword arguments, so a nonempty
`kwargs` raises `TypeError` at call time); for the sentinel `True` the
`MemoizeJac` derivative; for a callable the callable itself.  (`False` is
rejected by `__init__` before this callable could ever be stored.) -/
def resolveConJac (c : ConstraintDict) (eps : ℚ) :
    List ℚ → List ℚ → Kw → Except String JacVal :=
  match c.jac with
  | .trueV => memoConJac c.cfun
  | .call j => fun x a k => .ok (j x a k)
  | _ => fun x a k =>
    if k.isEmpty then
      match approx_fprime_vec x (fun y => plainConVal c.cfun y a []) eps with
      | .error e => .error e
      | .ok M => .ok (.arr (.two M))
    else .error "TypeError: approx_fprime got an unexpected keyword argument"

/-- Extracting the scalar objective value where a plain scalar is
expected. -/
def extractObjVal (r : ObjResult) : Except String ℚ :=
  match r with
  | .plain v => .ok v
  | .pair _ _ => .error "TypeError: expected a scalar, got a tuple"

/-- `MemoizeJac(fun).__call__` for the objective. -/
def memoObjVal (r : ObjResult) : Except String ℚ :=
  match r with
  | .pair v _ => .ok v
  | .plain _ => .error "TypeError: cannot unpack non-sequence"

/-- `MemoizeJac(fun).derivative` for the objective. -/
def memoObjGrad (r : ObjResult) : Except String (List ℚ) :=
  match r with
  | .pair _ g => .ok g
  | .plain _ => .error "TypeError: cannot unpack non-sequence"

/-- Constructor arguments of `IpoptProblemWrapper` (the parameters of
`__init__`). -/
structure WrapperParams where
  fun_ : List ℚ → List ℚ → Kw → ObjResult
  args : List ℚ
  kwargs : Kw
  jac : ObjJac
  hess : Option (List ℚ → List ℚ → Kw → Mat)
  hessp : Option (List ℚ → List ℚ → Kw → List ℚ)
  constraints : List ConstraintDict
  eps : ℚ
  con_dims : List Nat
  sparse_jacs : List Bool
  jac_nnz_row : List Nat
  jac_nnz_col : List Nat

/-- The immutable part of a constructed `IpoptProblemWrapper`: the resolved
callables and the frozen structural data.  The mutable counters live in
`WState`. -/
structure IpoptProblemWrapper where
  fun_ : List ℚ → List ℚ → Kw → Except String ℚ
  jac_ : List ℚ → List ℚ → Kw → Except String (List ℚ)
  args : List ℚ
  kwargs : Kw
  obj_hess : Option (List ℚ → List ℚ → Kw → Mat)
  _constraint_funs : List (List ℚ → List ℚ → Kw → Except String (List ℚ))
  _constraint_jacs : List (List ℚ → List ℚ → Kw → Except String JacVal)
  _constraint_hessians : List (Option (List ℚ → List ℚ → List ℚ → Kw → Mat))
  _constraint_dims : List Nat
  _constraint_args : List (List ℚ)
  _constraint_kwargs : List Kw
  _constraint_jac_is_sparse : List Bool
  _constraint_jacobian_structure : List Nat × List Nat

/-- The adapter's mutable state: the evaluation counters set up at the end
of `__init__`. -/
structure WState where
  nfev : Nat
  njev : Nat
  nit : Nat
deriving DecidableEq, Repr

/-- Counter state at construction: `self.nfev = 0; self.njev = 0;
self.nit = 0`. -/
def initWState : WState := ⟨0, 0, 0⟩

/-- The message of the `NotImplementedError` raised for a `jac` entry that
is neither `None`, a boolean sentinel usable here, nor callable. -/
def jacBoolMsg : String := "NotImplementedError: jac has to be bool or a function"

/-- The message of the `NotImplementedError` raised for partial Hessian
information. -/
def hessPartialMsg : String :=
  "NotImplementedError: hessian has to be provided for the objective and all constraints"

/-- The objective-side resolution of `__init__`: produce the stored
objective callable and gradient callable from the `jac` argument. -/
def resolveObjFunJac (p : WrapperParams) :
    Except String ((List ℚ → List ℚ → Kw → Except String ℚ) ×
      (List ℚ → List ℚ → Kw → Except String (List ℚ))) :=
  match p.jac with
  | .noneV =>
    .ok (fun x a k => extractObjVal (p.fun_ x a k),
         fun x a k => approx_fprime x (fun y => extractObjVal (p.fun_ y a k)) p.eps)
  | .trueV =>
    .ok (fun x a k =>
           if k.isEmpty then memoObjVal (p.fun_ x a k)
           else .error "TypeError: MemoizeJac got an unexpected keyword argument",
         fun x a k =>
           if k.isEmpty then memoObjGrad (p.fun_ x a k)
           else .error "TypeError: MemoizeJac got an unexpected keyword argument")
  | .call g =>
    .ok (fun x a k => extractObjVal (p.fun_ x a k),
         fun x a k => .ok (g x a k))
  | .falseV => .error jacBoolMsg

/-- The per-constraint lists accumulated by the `__init__` loop. -/
structure ConLists where
  funs : List (List ℚ → List ℚ → Kw → Except String (List ℚ))
  jacs : List (List ℚ → List ℚ → Kw → Except String JacVal)
  hessians : List (Option (List ℚ → List ℚ → List ℚ → Kw → Mat))
  argsL : List (List ℚ)
  kwargsL : List Kw

/-- The partial-Hessian test of `__init__`: an objective Hessian without a
constraint Hessian, or vice versa. -/
def hessMismatch (objHess : Option (List ℚ → List ℚ → Kw → Mat))
    (conHess : Option (List ℚ → List ℚ → List ℚ → Kw → Mat)) : Bool :=
  (objHess.isSome && conHess.isNone) || (objHess.isNone && conHess.isSome)

/-- The constraint loop of `__init__`: resolve each constraint's function
and Jacobian (raising for a non-callable, non-`None`, non-`True` `jac`
such as `False`), then enforce the all-or-nothing Hessian rule, and
accumulate the per-constraint lists. -/
def processCons (objHess : Option (List ℚ → List ℚ → Kw → Mat)) (eps : ℚ) :
    List ConstraintDict → Except String ConLists
  | [] => .ok ⟨[], [], [], [], []⟩
  | c :: rest =>
    match c.jac with
    | .falseV => .error jacBoolMsg
    | _ =>
      if hessMismatch objHess c.hess then .error hessPartialMsg
      else
        match processCons objHess eps rest with
        | .error e => .error e
        | .ok ls =>
          .ok ⟨resolveConFun c :: ls.funs, resolveConJac c eps :: ls.jacs,
               c.hess :: ls.hessians, c.args :: ls.argsL, c.kwargs :: ls.kwargsL⟩

/-- `IpoptProblemWrapper.__init__`: reject a Hessian-vector-product, resolve
the objective callables, process the constraint dicts, and freeze the
structural data.  (The SciPy-availability check is assumed to pass.) -/
def IpoptProblemWrapper.init (p : WrapperParams) :
    Except String IpoptProblemWrapper :=
  match p.hessp with
  | some _ =>
    .error "NotImplementedError: Using hessian matrix times an arbitrary vector is not yet implemented!"
  | none =>
    match resolveObjFunJac p with
    | .error e => .error e
    | .ok (f, j) =>
      match processCons p.hess p.eps p.constraints with
      | .error e => .error e
      | .ok ls =>
        .ok { fun_ := f
              jac_ := j
              args := p.args
              kwargs := p.kwargs
              obj_hess := p.hess
              _constraint_funs := ls.funs
              _constraint_jacs := ls.jacs
              _constraint_hessians := ls.hessians
              _constraint_dims := p.con_dims
              _constraint_args := ls.argsL
              _constraint_kwargs := ls.kwargsL
              _constraint_jac_is_sparse := p.sparse_jacs
              _constraint_jacobian_structure := (p.jac_nnz_row, p.jac_nnz_col) }

/-- `objective(x)`: increment `nfev`, then forward to the stored objective
with the stored extra args/kwargs.  (The counter is incremented even when
the user callable raises, as in the source.) -/
def IpoptProblemWrapper.objective (w : IpoptProblemWrapper) (s : WState)
    (x : List ℚ) : Except String ℚ × WState :=
  (w.fun_ x w.args w.kwargs, { s with nfev := s.nfev + 1 })

/-- `gradient(x, **kwargs)`: increment `njev`, then forward to the resolved
gradient callable with the stored extra args/kwargs (the method's own
`**kwargs` parameter is ignored by the source). -/
def IpoptProblemWrapper.gradient (w : IpoptProblemWrapper) (s : WState)
    (x : List ℚ) : Except String (List ℚ) × WState :=
  (w.jac_ x w.args w.kwargs, { s with njev := s.njev + 1 })

/-- The `constraints(x)` loop: evaluate each stored constraint function at
`x` with its own args/kwargs (`zip` stops at the shortest list, as in
Python). -/
def evalConFuns :
    List (List ℚ → List ℚ → Kw → Except String (List ℚ)) →
    List (List ℚ) → List Kw → List ℚ → Except String (List (List ℚ))
  | f :: fs, a :: as_, k :: ks, x =>
    match f x a k with
    | .error e => .error e
    | .ok v =>
      match evalConFuns fs as_ ks x with
      | .error e => .error e
      | .ok vs => .ok (v :: vs)
  | _, _, _, _ => .ok []

/-- `constraints(x)`: stack the per-constraint values with `np.hstack`. -/
def IpoptProblemWrapper.constraints (w : IpoptProblemWrapper) (x : List ℚ) :
    Except String (List ℚ) :=
  match evalConFuns w._constraint_funs w._constraint_args w._constraint_kwargs x with
  | .error e => .error e
  | .ok vals => np_hstack vals

/-- `jacobianstructure()`: a pure read of the row/column index pair frozen
at construction. -/
def IpoptProblemWrapper.jacobianstructure (w : IpoptProblemWrapper) :
    List Nat × List Nat :=
  w._constraint_jacobian_structure

/-- One constraint's contribution inside `jacobian(x)`: a sparse-flagged
constraint contributes the COO `data` array of its evaluated Jacobian, a
dense-flagged one the evaluated Jacobian flattened row-major by
`np.atleast_2d(...).ravel()`.  A value of the wrong kind for the flag is a
contract violation modelled as an error. -/
def conJacStep (b : Bool) (jv : JacVal) : Except String (List ℚ) :=
  if b then
    match jv with
    | .coo c => .ok c.data
    | .arr _ => .error "AttributeError: a dense result has no data attribute"
  else
    match jv with
    | .arr a2 => .ok (np_atleast_2d a2).flatten
    | .coo _ => .error "TypeError: a sparse result where a dense array was expected"

/-- The `jacobian(x)` loop: for constraint `i`, the sparse-flag list is
indexed first (an out-of-range index raises, as in Python), then the
constraint's Jacobian is evaluated and converted by `conJacStep`. -/
def evalConJacs :
    List Bool → List (List ℚ → List ℚ → Kw → Except String JacVal) →
    List (List ℚ) → List Kw → List ℚ → Except String (List (List ℚ))
  | flags, j :: js, a :: as_, k :: ks, x =>
    match flags with
    | [] => .error "IndexError: list index out of range"
    | b :: bs =>
      match j x a k with
      | .error e => .error e
      | .ok jv =>
        match conJacStep b jv with
        | .error e => .error e
        | .ok v =>
          match evalConJacs bs js as_ ks x with
          | .error e => .error e
          | .ok vs => .ok (v :: vs)
  | _, _, _, _, _ => .ok []

/-- `jacobian(x)`: stack the per-constraint nonzero values with
`np.hstack`. -/
def IpoptProblemWrapper.jacobian (w : IpoptProblemWrapper) (x : List ℚ) :
    Except String (List ℚ) :=
  match evalConJacs w._constraint_jac_is_sparse w._constraint_jacs
      w._constraint_args w._constraint_kwargs x with
  | .error e => .error e
  | .ok vals => np_hstack vals

/-- Scalar multiple of a matrix. -/
def matScale (c : ℚ) (M : Mat) : Mat :=
  M.map (fun r => r.map (fun v => c * v))

/-- Two matrices have the same (possibly ragged) shape. -/
def sameShape (A B : Mat) : Bool :=
  A.map List.length == B.map List.length

/-- numpy `H + B` for same-shape matrices; a shape mismatch is modelled as
an error (the adapter's contract never broadcasts constraint Hessians). -/
def matAdd (A B : Mat) : Except String Mat :=
  if sameShape A B then
    .ok (List.zipWith (fun ra rb => List.zipWith (fun u v => u + v) ra rb) A B)
  else .error "ValueError: operands could not be broadcast together"

/-- Running totals of a list of naturals, starting from `acc`:
`np.cumsum`. -/
def cumsumFrom (acc : Nat) : List Nat → List Nat
  | [] => []
  | d :: ds => (acc + d) :: cumsumFrom (acc + d) ds

/-- `np.cumsum`. -/
def cumsum (l : List Nat) : List Nat := cumsumFrom 0 l

/-- `np.split(l, idxs)` continued from absolute position `prev`: slices
`l[prev:i1], l[i1:i2], ..., l[ik:]` (numpy slicing clamps out-of-range
indices, as `take`/`drop` do). -/
def npSplitFrom (l : List ℚ) (prev : Nat) : List Nat → List (List ℚ)
  | [] => [l.drop prev]
  | i :: is => ((l.drop prev).take (i - prev)) :: npSplitFrom l i is

/-- `np.split(l, idxs)`. -/
def npSplit (l : List ℚ) (idxs : List Nat) : List (List ℚ) :=
  npSplitFrom l 0 idxs

/-- `np.tril_indices(n)` as the row-major list of pairs `(i, j)` with
`j ≤ i < n`. -/
def trilIndices (n : Nat) : List (Nat × Nat) :=
  (List.range n).flatMap (fun i => (List.range (i + 1)).map (fun j => (i, j)))

/-- Fancy indexing `H[rows, cols]` over an index-pair list; an
out-of-range index raises. -/
def trilLoop (H : Mat) : List (Nat × Nat) → Except String (List ℚ)
  | [] => .ok []
  | (i, j) :: rest =>
    match H[i]? with
    | none => .error "IndexError: index out of bounds"
    | some r =>
      match r[j]? with
      | none => .error "IndexError: index out of bounds"
      | some v =>
        match trilLoop H rest with
        | .error e => .error e
        | .ok vs => .ok (v :: vs)

/-- `H[np.tril_indices(n)]`. -/
def trilExtract (H : Mat) (n : Nat) : Except String (List ℚ) :=
  trilLoop H (trilIndices n)

/-- The `hessian` accumulation loop: add each constraint Hessian evaluated
at `(x, its multiplier segment, its args/kwargs)` to the running matrix
(`zip` stops at the shortest list). -/
def hessLoop (x : List ℚ) :
    Mat → List (Option (List ℚ → List ℚ → List ℚ → Kw → Mat)) →
    List (List ℚ) → List Kw → List (List ℚ) → Except String Mat
  | H, h :: hs, a :: as_, k :: ks, l :: ls =>
    match h with
    | none => .error "TypeError: NoneType object is not callable"
    | some hf =>
      match matAdd H (hf x l a k) with
      | .error e => .error e
      | .ok H2 => hessLoop x H2 hs as_ ks ls
  | H, _, _, _, _ => .ok H

/-- `hessian(x, lagrange, obj_factor)`: scale the objective Hessian by
`obj_factor`, split the multipliers at the cumulative constraint
dimensions, add each constraint's Hessian contribution, and return the
lower-triangular entries `H[np.tril_indices(x.size)]`. -/
def IpoptProblemWrapper.hessian (w : IpoptProblemWrapper) (x lagrange : List ℚ)
    (obj_factor : ℚ) : Except String (List ℚ) :=
  match w.obj_hess with
  | none => .error "TypeError: NoneType object is not callable"
  | some oh =>
    let H0 := matScale obj_factor (oh x w.args w.kwargs)
    let lagrs := npSplit lagrange (cumsum w._constraint_dims.dropLast)
    match hessLoop x H0 w._constraint_hessians w._constraint_args
        w._constraint_kwargs lagrs with
    | .error e => .error e
    | .ok H => trilExtract H x.length

/-- `intermediate(...)`: record the solver-reported iteration count; every
other argument is ignored. -/
def IpoptProblemWrapper.intermediate (_w : IpoptProblemWrapper) (s : WState)
    (iter_count : Nat) : WState :=
  { s with nit := iter_count }

/-- `evaluate_fun_with_grad(x)` (backwards compatibility): objective then
gradient. -/
def IpoptProblemWrapper.evaluate_fun_with_grad (w : IpoptProblemWrapper)
    (s : WState) (x : List ℚ) :
    (Except String ℚ × Except String (List ℚ)) × WState :=
  match w.objective s x with
  | (v, s1) =>
    match w.gradient s1 x with
    | (g, s2) => ((v, g), s2)

/-- One call on the adapter's solver-facing method surface. -/
inductive MethodCall where
  | objectiveC (x : List ℚ)
  | gradientC (x : List ℚ)
  | constraintsC (x : List ℚ)
  | jacobianC (x : List ℚ)
  | jacobianstructureC
  | hessianC (x lagrange : List ℚ) (obj_factor : ℚ)
  | intermediateC (iter_count : Nat)

/-- The state effect of one method call: only `objective`, `gradient` and
`intermediate` touch the counters; the remaining methods never assign to
them. -/
def IpoptProblemWrapper.runCall (w : IpoptProblemWrapper) (s : WState) :
    MethodCall → WState
  | .objectiveC x => (w.objective s x).2
  | .gradientC x => (w.gradient s x).2
  | .intermediateC k => w.intermediate s k
  | _ => s

/-- The state after a sequence of method calls. -/
def IpoptProblemWrapper.runTrace (w : IpoptProblemWrapper) (s : WState) :
    List MethodCall → WState
  | [] => s
  | c :: cs => w.runTrace (w.runCall s c) cs

/-- `get_bounds`: split a sequence of `(low, high)` pairs into two parallel
lists, or `(None, None)` when no bounds were supplied. -/
def get_bounds (bounds : Option (List (ℚ × ℚ))) :
    Option (List ℚ) × Option (List ℚ) :=
  match bounds with
  | none => (none, none)
  | some bs => (some (bs.map (fun b => b.1)), some (bs.map (fun b => b.2)))

/-- The dimension probe shared by `get_constraint_dimensions` and
`get_constraint_bounds`: when `con.get('jac', False) is True` the length of
`atleast_1d(fun(x0, ...)[0])`, otherwise the length of
`atleast_1d(fun(x0, ...))`.  Indexing a plain (non-pair) array with `[0]`
yields its first scalar (length 1 after `atleast_1d`) and raises
`IndexError` when it is empty; a pair where a plain array is expected is a
contract violation modelled as an error. -/
def conDim (con : ConstraintDict) (x0 : List ℚ) : Except String Nat :=
  match con.jac with
  | .trueV =>
    match con.cfun x0 con.args con.kwargs with
    | .pair v _ => .ok v.length
    | .plain [] => .error "IndexError: index 0 is out of bounds"
    | .plain (_ :: _) => .ok 1
  | _ =>
    match con.cfun x0 con.args con.kwargs with
    | .plain v => .ok v.length
    | .pair _ _ => .error "TypeError: expected an array, got a tuple"

/-- `get_constraint_dimensions`: the list of per-constraint output
dimensions probed at `x0`. -/
def get_constraint_dimensions :
    List ConstraintDict → List ℚ → Except String (List Nat)
  | [], _ => .ok []
  | c :: rest, x0 =>
    match conDim c x0 with
    | .error e => .error e
    | .ok m =>
      match get_constraint_dimensions rest x0 with
      | .error e => .error e
      | .ok ms => .ok (m :: ms)

/-- `get_constraint_bounds(constraints, x0, INF=1e19)`: per constraint of
dimension `m`, extend `cl` by `m` zeros and `cu` by `m` zeros (`eq`) or `m`
copies of `INF` (`ineq`); any other type tag raises `ValueError`. -/
def get_constraint_bounds :
    List ConstraintDict → List ℚ → ℚ → Except String (List ℚ × List ℚ)
  | [], _, _ => .ok ([], [])
  | con :: rest, x0, INF =>
    match conDim con x0 with
    | .error e => .error e
    | .ok m =>
      match
        (if con.ctype = "eq" then Except.ok (List.replicate m (0 : ℚ))
         else if con.ctype = "ineq" then Except.ok (List.replicate m INF)
         else Except.error ("ValueError: " ++ con.ctype))
      with
      | .error e => .error e
      | .ok cuHead =>
        match get_constraint_bounds rest x0 INF with
        | .error e => .error e
        | .ok (cl, cu) =>
          .ok (List.replicate m (0 : ℚ) ++ cl, cuHead ++ cu)

/-- Classification of one evaluated Jacobian by
`_get_sparse_jacobian_structure`: a COO result is recorded as-is and
flagged sparse; a dense result is replaced by
`coo_array(np.ones_like(np.atleast_2d(...)))` and flagged dense. -/
def classifyJac : JacVal → Coo × Bool
  | .coo c => (c, true)
  | .arr a => (denseOnesCoo (np_atleast_2d a), false)

/-- The per-constraint probe of `_get_sparse_jacobian_structure`, at the
initial point `x0`: a truthy `jac` is evaluated (through the
tuple-unpacking convention when it is the sentinel `True`); a falsy `jac`
(absent, `None` or `False`) yields the dense all-ones fallback of shape
`(con_val.size, x0.size)`.  Unpacking `_, jac_val = fun(x0)` from a plain
array succeeds exactly for length two, producing a scalar whose
`atleast_2d` is `1 x 1`. -/
def probeCon (con : ConstraintDict) (x0 : List ℚ) : Except String (Coo × Bool) :=
  match con.jac with
  | .trueV =>
    match con.cfun x0 con.args con.kwargs with
    | .pair _ jv => .ok (classifyJac jv)
    | .plain v =>
      match v with
      | [_, b] => .ok (denseOnesCoo [[b]], false)
      | _ => .error "ValueError: cannot unpack"
  | .call j => .ok (classifyJac (j x0 con.args con.kwargs))
  | _ =>
    match con.cfun x0 con.args con.kwargs with
    | .plain v => .ok (denseOnesCoo (onesMat v.length x0.length), false)
    | .pair _ _ => .error "TypeError: expected an array, got a tuple"

/-- The probe loop over all constraints. -/
def probeCons : List ConstraintDict → List ℚ → Except String (List (Coo × Bool))
  | [], _ => .ok []
  | c :: rest, x0 =>
    match probeCon c x0 with
    | .error e => .error e
    | .ok p =>
      match probeCons rest x0 with
      | .error e => .error e
      | .ok ps => .ok (p :: ps)

/-- `_get_sparse_jacobian_structure(constraints, x0)`: probe each
constraint's Jacobian at `x0`, vertically stack the COO blocks, and return
the sparse flags together with the stacked row and column index arrays (an
empty constraint list short-circuits to three empty lists). -/
def _get_sparse_jacobian_structure (cons : List ConstraintDict) (x0 : List ℚ) :
    Except String (List Bool × List Nat × List Nat) :=
  match cons with
  | [] => .ok ([], [], [])
  | _ =>
    match probeCons cons x0 with
    | .error e => .error e
    | .ok pairs =>
      match cooVstack (pairs.map (fun p => p.1)) with
      | .error e => .error e
      | .ok J => .ok (pairs.map (fun p => p.2), J.row, J.col)

/-- A solver option value: a number or a string.  (The byte/str encoding
performed by `convert_to_bytes` is not observable in the model; keys are
plain strings.) -/
inductive OptVal where
  | num (q : ℚ)
  | str (s : String)
deriving DecidableEq, Repr

/-- The option dictionary: insertion-ordered keys, as a Python dict. -/
abbrev OptDict : Type := List (String × OptVal)

/-- `key in options`. -/
def dcontains (d : OptDict) (k : String) : Bool :=
  d.any (fun p => p.1 == k)

/-- `options.get(key)`. -/
def dget? (d : OptDict) (k : String) : Option OptVal :=
  (d.find? (fun p => p.1 == k)).map (fun p => p.2)

/-- `options[key] = v`: update in place when present, else append. -/
def dset (d : OptDict) (k : String) (v : OptVal) : OptDict :=
  if dcontains d k then d.map (fun p => if p.1 == k then (k, v) else p)
  else d ++ [(k, v)]

/-- `options.pop(key)` (the removal part). -/
def dpop (d : OptDict) (k : String) : OptDict :=
  d.filter (fun p => !(p.1 == k))

/-- `replace_option(options, oldname, newname)`: rename `oldname` to
`newname` only when `oldname` is present and `newname` is absent (the
popped value is re-inserted at the end, as a fresh dict key is). -/
def replace_option (options : OptDict) (oldname newname : String) : OptDict :=
  if dcontains options oldname then
    if dcontains options newname then options
    else
      match dget? options oldname with
      | some v => dset (dpop options oldname) newname v
      | none => options
  else options

/-- `convert_to_bytes`: re-encodes every `str` key as `bytes`.  With
string keys modelled directly, the encoding is a no-op (an all-`str` dict
keeps its iteration order, each key being popped and re-appended in
turn). -/
def convert_to_bytes (options : OptDict) : OptDict := options

/-- Python `tol or 1e-8`: `None` and `0.0` are falsy. -/
def tolOrDefault (tol : Option ℚ) : ℚ :=
  match tol with
  | none => eps8
  | some t => if t = 0 then eps8 else t

/-- The pattern `if key not in options: options[key] = v` used for each
option default. -/
def setDefault (o : OptDict) (key : String) (v : OptVal) : OptDict :=
  if dcontains o key then o else dset o key v

/-- The option renaming and defaulting block of `minimize_ipopt` (after the
solver handle is constructed): rename `disp` to `print_level` and
`maxiter` to `max_iter`; default `print_level` to `0`, `tol` to the `tol`
argument (or `1e-8`), `mu_strategy` to `adaptive`, and
`hessian_approximation` to `limited-memory` when neither a Hessian nor a
Hessian-vector product was supplied. -/
def translateOptions (options : OptDict) (tol : Option ℚ)
    (hessIsNone hesspIsNone : Bool) : OptDict :=
  let o := convert_to_bytes options
  let o := replace_option o "disp" "print_level"
  let o := replace_option o "maxiter" "max_iter"
  let o := setDefault o "print_level" (.num 0)
  let o := setDefault o "tol" (.num (tolOrDefault tol))
  let o := setDefault o "mu_strategy" (.str "adaptive")
  if dcontains o "hessian_approximation" then o
  else if hessIsNone && hesspIsNone then
    dset o "hessian_approximation" (.str "limited-memory")
  else o

/-- The defaulting half of the option block of `minimize_ipopt` (the three
`setdefault`s and the conditional `hessian_approximation` default),
applied after the two renames; `translateOptions` is definitionally the
two renames followed by this. -/
def optionDefaults (o : OptDict) (tol : Option ℚ) (hN hpN : Bool) : OptDict :=
  let o := setDefault o "print_level" (.num 0)
  let o := setDefault o "tol" (.num (tolOrDefault tol))
  let o := setDefault o "mu_strategy" (.str "adaptive")
  if dcontains o "hessian_approximation" then o
  else if hN && hpN then
    dset o "hessian_approximation" (.str "limited-memory")
  else o

/-- Rendering of an option value inside the re-raised `TypeError`
message. -/
def optValStr : OptVal → String
  | .num q => toString q
  | .str s => s

/-- The message of the `TypeError` re-raised when the solver rejects an
option: it embeds the option name, the value, and the original solver
message. -/
def invalidOptionMsg (k : String) (v : OptVal) (e : String) : String :=
  "Invalid option for IPOPT: " ++ k ++ ": " ++ optValStr v ++
    " (Original message: \"" ++ e ++ "\")"

/-- The option-application loop of `minimize_ipopt`: apply each option in
dict order; the first one the solver rejects aborts with the wrapped
`TypeError`. -/
def applyOptions (add : String → OptVal → Except String Unit) :
    OptDict → Except String Unit
  | [] => .ok ()
  | (k, v) :: rest =>
    match add k v with
    | .ok _ => applyOptions add rest
    | .error e => .error (invalidOptionMsg k v e)

/-- `_wrap_fun(fun, kwargs)`: bake the stored keyword arguments into a
callable.  When `kwargs` is falsy the callable is returned unchanged and is
later invoked without keyword arguments, which is the same as baking in the
empty dict. -/
def _wrap_fun {α : Type} (f : List ℚ → List ℚ → Kw → α) (kwargs : Kw) :
    List ℚ → List ℚ → α :=
  if kwargs.isEmpty then fun x a => f x a [] else fun x a => f x a kwargs

/-- The objective `jac` argument after `_wrap_fun`: only a callable is
wrapped (`callable(True)` and `callable(None)` are false). -/
inductive WObjJac where
  | noneV
  | trueV
  | falseV
  | call (j : List ℚ → List ℚ → List ℚ)

/-- `_wrap_fun` on the objective `jac` argument. -/
def wrapObjJac : ObjJac → Kw → WObjJac
  | .noneV, _ => .noneV
  | .trueV, _ => .trueV
  | .falseV, _ => .falseV
  | .call j, k => .call (_wrap_fun j k)

/-- A constraint `jac` entry after `_wrap_fun`. -/
inductive WConJac where
  | absent
  | noneV
  | falseV
  | trueV
  | call (j : List ℚ → List ℚ → JacVal)

/-- `_wrap_fun` on a constraint `jac` entry. -/
def wrapConJac : ConJac → Kw → WConJac
  | .absent, _ => .absent
  | .noneV, _ => .noneV
  | .falseV, _ => .falseV
  | .trueV, _ => .trueV
  | .call j, k => .call (_wrap_fun j k)

/-- A constraint dict after `_wrap_funs`: `kwargs` popped, `fun` and `jac`
wrapped, the remaining entries untouched. -/
structure WrappedConstraint where
  cfun : List ℚ → List ℚ → ConResult
  jac : WConJac
  hess : Option (List ℚ → List ℚ → List ℚ → Kw → Mat)
  ctype : String
  args : List ℚ

/-- Wrapping of one constraint dict by `_wrap_funs`. -/
def wrapConstraint (c : ConstraintDict) : WrappedConstraint :=
  { cfun := _wrap_fun c.cfun c.kwargs
    jac := wrapConJac c.jac c.kwargs
    hess := c.hess
    ctype := c.ctype
    args := c.args }

/-- The parameters of `minimize_ipopt`.  `x0IsScalar` records whether the
original `x0` was 0-dimensional (`np.asarray(x0).shape == ()`); `x0` itself
is the result of `np.atleast_1d`. -/
structure DriverParams where
  fun_ : List ℚ → List ℚ → Kw → ObjResult
  x0 : List ℚ
  x0IsScalar : Bool
  args : List ℚ
  kwargs : Kw
  method : Option String
  jac : ObjJac
  hess : Option (List ℚ → List ℚ → Kw → Mat)
  hessp : Option (List ℚ → List ℚ → Kw → List ℚ)
  bounds : Option (List (ℚ × ℚ))
  constraints : List ConstraintDict
  tol : Option ℚ
  callback : Option Unit
  options : Option OptDict

/-- The argument record handed to scipy's generic `minimize` on the
delegation path. -/
structure MinimizeCall where
  fun_ : List ℚ → List ℚ → ObjResult
  x0 : List ℚ
  args : List ℚ
  method : String
  jac : WObjJac
  hess : Option (List ℚ → List ℚ → Mat)
  hessp : Option (List ℚ → List ℚ → List ℚ)
  bounds : Option (List (ℚ × ℚ))
  constraints : List WrappedConstraint
  tol : Option ℚ
  callback : Option Unit
  options : Option OptDict

/-- `_wrap_funs`: wrap the objective, gradient, Hessian,
Hessian-vector-product and every constraint's function/Jacobian so that the
stored keyword arguments are baked in. -/
def _wrap_funs (fun_ : List ℚ → List ℚ → Kw → ObjResult) (jac : ObjJac)
    (hess : Option (List ℚ → List ℚ → Kw → Mat))
    (hessp : Option (List ℚ → List ℚ → Kw → List ℚ))
    (constraints : List ConstraintDict) (kwargs : Kw) :
    (List ℚ → List ℚ → ObjResult) × WObjJac ×
      Option (List ℚ → List ℚ → Mat) × Option (List ℚ → List ℚ → List ℚ) ×
      List WrappedConstraint :=
  (_wrap_fun fun_ kwargs, wrapObjJac jac kwargs,
   hess.map (fun h => _wrap_fun h kwargs), hessp.map (fun h => _wrap_fun h kwargs),
   constraints.map wrapConstraint)

/-- The `MinimizeCall` that the delegation path of `minimize_ipopt` builds
for method `m`. -/
def wrappedMinimizeCall (p : DriverParams) (m : String) : MinimizeCall :=
  match _wrap_funs p.fun_ p.jac p.hess p.hessp p.constraints p.kwargs with
  | (wf, wj, wh, whp, wcons) =>
    { fun_ := wf, x0 := p.x0, args := p.args, method := m, jac := wj,
      hess := wh, hessp := whp, bounds := p.bounds, constraints := wcons,
      tol := p.tol, callback := p.callback, options := p.options }

/-- The result object returned by `minimize_ipopt` (scipy's
`OptimizeResult` attribute bag).  `x` is a scalar when the original guess
was 0-dimensional. -/
inductive PyVec where
  | scal (v : ℚ)
  | vec (l : List ℚ)

/-- The `info` dict returned by the native solver's `solve`. -/
structure SolveInfo where
  status : Int
  status_msg : String
  obj_val : ℚ

/-- The fields of the returned `OptimizeResult`. -/
structure OptimizeResult where
  x : PyVec
  success : Bool
  status : Int
  message : String
  fun_ : ℚ
  info : SolveInfo
  nfev : Nat
  njev : Nat
  nit : Nat

/-- The construction arguments of the native `cyipopt.Problem` handle. -/
structure ProblemDef where
  n : Nat
  m : Nat
  lb : Option (List ℚ)
  ub : Option (List ℚ)
  cl : List ℚ
  cu : List ℚ

/-- The externally observable behaviour of a constructed native solver
handle: `add_option` may reject an option (a `TypeError`), and `solve`
returns the solution vector, the info dict, and the sequence of callback
invocations it performed on the problem object. -/
structure NativeSolver where
  add_option : String → OptVal → Except String Unit
  solve : List ℚ → List ℚ × SolveInfo × List MethodCall

/-- The observable steps of one `minimize_ipopt` call, in order. -/
inductive Event where
  | gotBounds
  | computedConstraintBounds
  | computedConstraintDims
  | probedStructure
  | builtWrapper
  | builtProblem
  | calledGenericMinimize
  | solved
deriving DecidableEq, Repr

/-- `minimize_ipopt(fun, x0, ...)`, parameterised by the two external
collaborators: the native solver constructor and scipy's generic
`minimize`.  Returns the result (or the propagated exception) together
with the list of performed steps. -/
def minimize_ipopt (mkSolver : ProblemDef → NativeSolver)
    (scipy_minimize : MinimizeCall → OptimizeResult) (p : DriverParams) :
    Except String OptimizeResult × List Event :=
  match p.method with
  | some m =>
    (.ok (scipy_minimize (wrappedMinimizeCall p m)), [.calledGenericMinimize])
  | none =>
    let _x0 := p.x0
    let lbub := get_bounds p.bounds
    match get_constraint_bounds p.constraints _x0 INF19 with
    | .error e => (.error e, [.gotBounds, .computedConstraintBounds])
    | .ok (cl, cu) =>
      match get_constraint_dimensions p.constraints _x0 with
      | .error e =>
        (.error e, [.gotBounds, .computedConstraintBounds, .computedConstraintDims])
      | .ok con_dims =>
        match _get_sparse_jacobian_structure p.constraints _x0 with
        | .error e =>
          (.error e,
           [.gotBounds, .computedConstraintBounds, .computedConstraintDims,
            .probedStructure])
        | .ok (sparse_jacs, jac_nnz_row, jac_nnz_col) =>
          match IpoptProblemWrapper.init
              ⟨p.fun_, p.args, p.kwargs, p.jac, p.hess, p.hessp, p.constraints,
               eps8, con_dims, sparse_jacs, jac_nnz_row, jac_nnz_col⟩ with
          | .error e =>
            (.error e,
             [.gotBounds, .computedConstraintBounds, .computedConstraintDims,
              .probedStructure])
          | .ok problem =>
            let options := p.options.getD []
            let solver := mkSolver ⟨_x0.length, cl.length, lbub.1, lbub.2, cl, cu⟩
            let opts := translateOptions options p.tol p.hess.isNone p.hessp.isNone
            match applyOptions solver.add_option opts with
            | .error e =>
              (.error e,
               [.gotBounds, .computedConstraintBounds, .computedConstraintDims,
                .probedStructure, .builtWrapper, .builtProblem])
            | .ok _ =>
              match solver.solve _x0 with
              | (xsol, info, trace) =>
                let finalS := problem.runTrace initWState trace
                let xres :=
                  if p.x0IsScalar then PyVec.scal (xsol.headD 0) else PyVec.vec xsol
                (.ok { x := xres, success := info.status == 0, status := info.status,
                       message := info.status_msg, fun_ := info.obj_val, info := info,
                       nfev := finalS.nfev, njev := finalS.njev, nit := finalS.nit },
                 [.gotBounds, .computedConstraintBounds, .computedConstraintDims,
                  .probedStructure, .builtWrapper, .builtProblem, .solved])

/-! ## Specification-side definitions

The following definitions phrase the properties the specification claims;
the theorems below relate them to the embedded source functions. -/

/-- Splitting a list into consecutive segments of the given lengths (the
specification's per-constraint multiplier segments at the cumulative
boundaries). -/
def segsBy : List Nat → List ℚ → List (List ℚ)
  | [], _ => []
  | d :: ds, l => l.take d :: segsBy ds (l.drop d)

/-- Entry `(i, j)` of a matrix (in-bounds use only). -/
def matEntry (M : Mat) (i j : Nat) : ℚ := (M.getD i []).getD j 0

/-- `M` is an `n x n` matrix. -/
def IsMatN (n : Nat) (M : Mat) : Prop :=
  M.length = n ∧ ∀ r ∈ M, r.length = n

instance (n : Nat) (M : Mat) : Decidable (IsMatN n M) := by
  unfold IsMatN
  infer_instance

/-- Total same-shape matrix addition (the specification-side sum). -/
def matAddT (A B : Mat) : Mat :=
  List.zipWith (fun ra rb => List.zipWith (fun u v => u + v) ra rb) A B

/-- The specification-side Hessian accumulation: starting from the scaled
objective Hessian, add each constraint's Hessian evaluated at `x`, its own
multiplier segment and its own args/kwargs. -/
def specConHessSum (x : List ℚ) :
    Mat → List ConstraintDict →
    List (List ℚ → List ℚ → List ℚ → Kw → Mat) → List (List ℚ) → Mat
  | H, c :: cs, hf :: hfs, seg :: segs =>
    specConHessSum x (matAddT H (hf x seg c.args c.kwargs)) cs hfs segs
  | H, _, _, _ => H

/-- Number of `objective` calls in a trace. -/
def countObjCalls (cs : List MethodCall) : Nat :=
  (cs.filter (fun c => match c with | .objectiveC _ => true | _ => false)).length

/-- Number of `gradient` calls in a trace. -/
def countGradCalls (cs : List MethodCall) : Nat :=
  (cs.filter (fun c => match c with | .gradientC _ => true | _ => false)).length

/-- The `iter_count` argument of the last `intermediate` call of a trace
(default `d` when there is none). -/
def lastIter (cs : List MethodCall) (d : Nat) : Nat :=
  cs.foldl (fun acc c => match c with | .intermediateC k => k | _ => acc) d

/-! ## Concrete instances used by the witnesses and counterexamples -/

/-- A placeholder wrapper (never the result of a successful `init` in any
statement below; used only to extract the value of a successful
construction). -/
def dummyWrapper : IpoptProblemWrapper where
  fun_ := fun _ _ _ => .error "dummy"
  jac_ := fun _ _ _ => .error "dummy"
  args := []
  kwargs := []
  obj_hess := none
  _constraint_funs := []
  _constraint_jacs := []
  _constraint_hessians := []
  _constraint_dims := []
  _constraint_args := []
  _constraint_kwargs := []
  _constraint_jac_is_sparse := []
  _constraint_jacobian_structure := ([], [])

/-- The wrapper built by a (successful) `init`. -/
def wrapperOf (p : WrapperParams) : IpoptProblemWrapper :=
  (IpoptProblemWrapper.init p).toOption.getD dummyWrapper

/-- An example objective: the first coordinate. -/
def exObj : List ℚ → List ℚ → Kw → ObjResult := fun x _ _ => .plain (x.headD 0)

/-- An example objective gradient. -/
def exGrad : List ℚ → List ℚ → Kw → List ℚ := fun _ _ _ => [1]

/-- Base constructor arguments: example objective and gradient, no
Hessian, no constraints. -/
def pBase : WrapperParams :=
  ⟨exObj, [], [], .call exGrad, none, none, [], eps8, [], [], [], []⟩

/-- An equality constraint of output dimension 1 whose value is its own
first extra positional argument. -/
def exCon1 : ConstraintDict where
  cfun := fun _ a _ => .plain [a.headD 0]
  jac := .absent
  hess := none
  ctype := "eq"
  args := [10]
  kwargs := []

/-- An inequality constraint of output dimension 2 with an explicit dense
Jacobian callable. -/
def exCon2 : ConstraintDict where
  cfun := fun x _ _ => .plain [x.headD 0, 2]
  jac := .call (fun _ _ _ => .arr (.one [1, 1]))
  hess := none
  ctype := "ineq"
  args := []
  kwargs := []

/-- Constructor arguments with the two example constraints. -/
def pC1 : WrapperParams :=
  { pBase with constraints := [exCon1, exCon2], con_dims := [1, 2] }

/-- A constraint (value `x0`, dimension 1) whose dense Jacobian callable
returns the 1-D array `[x0, 1]` (a `1 x 2` Jacobian for `n = 2`). -/
def exConJ : ConstraintDict where
  cfun := fun x _ _ => .plain [x.headD 0]
  jac := .call (fun x _ _ => .arr (.one [x.headD 0, 1]))
  hess := none
  ctype := "eq"
  args := []
  kwargs := []

/-- The COO block the structure probe records for `exConJ` at
`x0 = [0, 0]`. -/
def exCooJ : Coo := denseOnesCoo [[(0 : ℚ), 1]]

/-- The stacked structure for the single constraint `exConJ`. -/
def exJ : Coo := (cooVstack [exCooJ]).toOption.getD (denseOnesCoo [])

/-- Constructor arguments for the Jacobian example (structure taken from
the probe at `x0 = [0, 0]`). -/
def pC2 : WrapperParams :=
  { pBase with
    constraints := [exConJ]
    con_dims := [1]
    sparse_jacs := [false]
    jac_nnz_row := exJ.row
    jac_nnz_col := exJ.col }

/-- A constraint with an explicit Hessian callable. -/
def exHessCon : ConstraintDict where
  cfun := fun x _ _ => .plain [x.headD 0]
  jac := .call (fun _ _ _ => .arr (.one [1]))
  hess := some (fun _ l _ _ => [[l.headD 0]])
  ctype := "eq"
  args := []
  kwargs := []

/-- Constructor arguments with an objective Hessian and one constraint
Hessian (`n = 1`). -/
def pC3 : WrapperParams :=
  { pBase with
    hess := some (fun _ _ _ => [[3]])
    constraints := [exHessCon]
    con_dims := [1] }

/-- A constraint with an unrecognised type tag. -/
def exConBad : ConstraintDict where
  cfun := fun x _ _ => .plain [x.headD 0]
  jac := .absent
  hess := none
  ctype := "foo"
  args := []
  kwargs := []

/-- Constructor arguments with an objective Hessian but a constraint
without one (partial Hessian information). -/
def pC5bad : WrapperParams :=
  { pBase with hess := some (fun _ _ _ => [[3]]), constraints := [exCon1] }

/-- Constructor arguments with no Hessian anywhere. -/
def pC5good : WrapperParams := { pBase with constraints := [exCon1] }

/-- Constructor arguments whose gradient is absent (`jac=None`), so the
finite-difference fallback is used. -/
def pC7 : WrapperParams := { pBase with jac := .noneV }

/-- A constraint whose `jac` entry is the boolean `False`. -/
def exConFalse : ConstraintDict where
  cfun := fun x _ _ => .plain [x.headD 0]
  jac := .falseV
  hess := none
  ctype := "eq"
  args := []
  kwargs := []

/-- A native solver oracle that accepts every option and solves without
invoking any callback. -/
def exSolver : NativeSolver where
  add_option := fun _ _ => .ok ()
  solve := fun x => (x, ⟨0, "ok", 0⟩, [])

/-- A native-solver constructor oracle. -/
def exMkSolver : ProblemDef → NativeSolver := fun _ => exSolver

/-- A native solver oracle that rejects the option named `bad`. -/
def exRejectSolver : NativeSolver where
  add_option := fun k _ => if k == "bad" then .error "eek" else .ok ()
  solve := fun x => (x, ⟨0, "ok", 0⟩, [])

/-- The corresponding constructor oracle. -/
def exMkRejectSolver : ProblemDef → NativeSolver := fun _ => exRejectSolver

/-- A generic-minimizer oracle. -/
def exSM : MinimizeCall → OptimizeResult :=
  fun mc => ⟨.vec mc.x0, true, 0, "gen", 0, ⟨0, "gen", 0⟩, 0, 0, 0⟩

/-- Driver arguments selecting a scipy method (the delegation path), with
nonempty stored keyword arguments. -/
def pC8 : DriverParams :=
  ⟨exObj, [1], false, [], [("k", 1)], some "SLSQP", .call exGrad, none, none,
   none, [exCon1], none, none, none⟩

/-- Driver arguments on the native path with an option the solver
rejects. -/
def pC9 : DriverParams :=
  ⟨exObj, [1], false, [], [], none, .call exGrad, none, none,
   none, [], none, none, some [("bad", .str "x")]⟩

/-- Driver arguments on the native path with a constraint whose `jac`
entry is `False`. -/
def pC10 : DriverParams :=
  ⟨exObj, [1], false, [], [], none, .call exGrad, none, none,
   none, [exConFalse], none, none, none⟩

/-! ## Structural lemmas about the constructor -/

theorem processCons_eq (h : Option (List ℚ → List ℚ → Kw → Mat)) (eps : ℚ)
    (cons : List ConstraintDict) (ls : ConLists)
    (hok : processCons h eps cons = .ok ls) :
    ls.funs = cons.map resolveConFun ∧
    ls.jacs = cons.map (fun c => resolveConJac c eps) ∧
    ls.hessians = cons.map (fun c => c.hess) ∧
    ls.argsL = cons.map (fun c => c.args) ∧
    ls.kwargsL = cons.map (fun c => c.kwargs) := by
  induction cons generalizing ls with
  | nil =>
    simp only [processCons] at hok
    cases hok
    exact ⟨rfl, rfl, rfl, rfl, rfl⟩
  | cons c rest ih =>
    simp only [processCons] at hok
    split at hok
    · exact absurd hok (by simp)
    · split at hok
      · exact absurd hok (by simp)
      · cases hrec : processCons h eps rest with
        | error e => rw [hrec] at hok; exact absurd hok (by simp)
        | ok ls' =>
          rw [hrec] at hok
          cases hok
          obtain ⟨h1, h2, h3, h4, h5⟩ := ih ls' hrec
          simp [h1, h2, h3, h4, h5]

theorem init_eq (p : WrapperParams) (w : IpoptProblemWrapper)
    (hw : IpoptProblemWrapper.init p = .ok w) :
    w.args = p.args ∧ w.kwargs = p.kwargs ∧ w.obj_hess = p.hess ∧
    w._constraint_funs = p.constraints.map resolveConFun ∧
    w._constraint_jacs = p.constraints.map (fun c => resolveConJac c p.eps) ∧
    w._constraint_hessians = p.constraints.map (fun c => c.hess) ∧
    w._constraint_dims = p.con_dims ∧
    w._constraint_args = p.constraints.map (fun c => c.args) ∧
    w._constraint_kwargs = p.constraints.map (fun c => c.kwargs) ∧
    w._constraint_jac_is_sparse = p.sparse_jacs ∧
    w._constraint_jacobian_structure = (p.jac_nnz_row, p.jac_nnz_col) := by
  unfold IpoptProblemWrapper.init at hw
  cases hp : p.hessp with
  | some v => rw [hp] at hw; exact absurd hw (by simp)
  | none =>
    rw [hp] at hw
    cases hr : resolveObjFunJac p with
    | error e => rw [hr] at hw; exact absurd hw (by simp)
    | ok fj =>
      rw [hr] at hw
      cases hc : processCons p.hess p.eps p.constraints with
      | error e => rw [hc] at hw; exact absurd hw (by simp)
      | ok ls =>
        rw [hc] at hw
        obtain ⟨f, j⟩ := fj
        cases hw
        obtain ⟨h1, h2, h3, h4, h5⟩ := processCons_eq _ _ _ _ hc
        exact ⟨rfl, rfl, rfl, h1, h2, h3, rfl, h4, h5, rfl, rfl⟩

/-- The resolved objective callables when `jac=None`: the raw objective and
the `approx_fprime` fallback. -/
theorem init_jac_none (p : WrapperParams) (w : IpoptProblemWrapper)
    (hw : IpoptProblemWrapper.init p = .ok w) (hj : p.jac = .noneV) :
    w.fun_ = (fun x a k => extractObjVal (p.fun_ x a k)) ∧
    w.jac_ = (fun x a k =>
      approx_fprime x (fun y => extractObjVal (p.fun_ y a k)) p.eps) := by
  unfold IpoptProblemWrapper.init at hw
  cases hp : p.hessp with
  | some v => rw [hp] at hw; exact absurd hw (by simp)
  | none =>
    rw [hp] at hw
    cases hr : resolveObjFunJac p with
    | error e => rw [hr] at hw; exact absurd hw (by simp)
    | ok fj =>
      rw [hr] at hw
      cases hc : processCons p.hess p.eps p.constraints with
      | error e => rw [hc] at hw; exact absurd hw (by simp)
      | ok ls =>
        rw [hc] at hw
        obtain ⟨f, j⟩ := fj
        cases hw
        unfold resolveObjFunJac at hr
        rw [hj] at hr
        cases hr
        exact ⟨rfl, rfl⟩

/-! ## Lemmas about the constraint evaluation loop -/

theorem evalConFuns_map (cons : List ConstraintDict) (x : List ℚ)
    (vs : List (List ℚ))
    (h : List.Forall₂ (fun c v => resolveConFun c x c.args c.kwargs = .ok v)
      cons vs) :
    evalConFuns (cons.map resolveConFun) (cons.map (fun c => c.args))
      (cons.map (fun c => c.kwargs)) x = .ok vs := by
  induction h with
  | nil => rfl
  | cons hcv _ ih =>
    simp only [List.map_cons, evalConFuns]
    rw [hcv, ih]

theorem flatten_length_of_forall₂ (vs : List (List ℚ)) (ds : List Nat)
    (h : List.Forall₂ (fun (v : List ℚ) d => v.length = d) vs ds) :
    vs.flatten.length = ds.sum := by
  induction h with
  | nil => rfl
  | cons hvd _ ih => simp [ih, hvd]

theorem flatten_slice_of_forall₂ (vs : List (List ℚ)) (ds : List Nat)
    (h : List.Forall₂ (fun (v : List ℚ) d => v.length = d) vs ds) :
    ∀ i, i < vs.length →
      ((vs.flatten.drop ((ds.take i).sum)).take (ds.getD i 0)) = vs.getD i [] := by
  induction h with
  | nil => intro i hi; exact absurd hi (by simp)
  | @cons v d vs' ds' hvd htl ih =>
    intro i hi
    cases i with
    | zero =>
      simp only [List.take_zero, List.sum_nil, List.flatten_cons, List.drop_zero,
        List.getD, List.getElem?_cons_zero, Option.getD_some]
      rw [← hvd]
      exact List.take_left v vs'.flatten
    | succ i' =>
      simp only [List.take_succ_cons, List.sum_cons, List.flatten_cons,
        List.getD_cons_succ]
      rw [← hvd, List.drop_append]
      exact ih i' (Nat.lt_of_succ_lt_succ hi)

/-! ## C1 -/

/-- C1: For an adapter built over a nonempty constraint list whose
per-constraint functions return arrays of dimensions `d_1..d_m` at `x`,
`constraints(x)` returns the end-to-end concatenation, in list order, of
each constraint's own function evaluated at `x` with that constraint's own
extra args/kwargs; the result has length `d_1+...+d_m` and constraint `i`
occupies the slice starting at `d_1+...+d_(i-1)` of length `d_i`.  (For an
empty constraint list `constraints(x)` raises instead, because `np.hstack`
rejects an empty list; hence the nonemptiness hypothesis — see the
counterexample.) -/
theorem C1_constraints_concatenation (p : WrapperParams)
    (w : IpoptProblemWrapper) (x : List ℚ) (vs : List (List ℚ)) (ds : List Nat)
    (hw : IpoptProblemWrapper.init p = .ok w)
    (hne : p.constraints ≠ [])
    (hvals : List.Forall₂ (fun c v => resolveConFun c x c.args c.kwargs = .ok v)
      p.constraints vs)
    (hdims : List.Forall₂ (fun (v : List ℚ) d => v.length = d) vs ds) :
    w.constraints x = .ok vs.flatten ∧
    vs.flatten.length = ds.sum ∧
    (∀ i, i < vs.length →
      ((vs.flatten.drop ((ds.take i).sum)).take (ds.getD i 0)) = vs.getD i []) := by
  obtain ⟨_, _, _, hfuns, _, _, _, hargs, hkw, _, _⟩ := init_eq p w hw
  have hvs : vs ≠ [] := by
    intro hnil
    rw [hnil] at hvals
    exact hne (List.forall₂_nil_right_iff.mp hvals)
  refine ⟨?_, flatten_length_of_forall₂ vs ds hdims,
    flatten_slice_of_forall₂ vs ds hdims⟩
  unfold IpoptProblemWrapper.constraints
  rw [hfuns, hargs, hkw, evalConFuns_map p.constraints x vs hvals]
  unfold np_hstack
  cases vs with
  | nil => exact absurd rfl hvs
  | cons v vs' => rfl

/-- C1 witness: the adapter over `pC1` (two constraints, dimensions 1 and
2) at `x = [3]`. -/
theorem C1_witness :
    (wrapperOf pC1).constraints [3] = .ok [10, 3, 2] ∧
    ([10, 3, 2] : List ℚ).length = ([1, 2] : List Nat).sum ∧
    ((([10, 3, 2] : List ℚ).drop ((([1, 2] : List Nat).take 1).sum)).take
      (([1, 2] : List Nat).getD 1 0)) = [3, 2] := by
  have h := C1_constraints_concatenation pC1 (wrapperOf pC1) [3]
    [[10], [3, 2]] [1, 2] rfl (by simp [pC1])
    (.cons rfl (.cons rfl .nil)) (.cons rfl (.cons rfl .nil))
  exact ⟨h.1, h.2.1, h.2.2 1 (by decide)⟩

/-- C1 counterexample: over an empty constraint list (`m = 0`) the claim
predicts the empty concatenation `[]` of length `0`, but `constraints(x)`
raises, because `np.hstack` rejects an empty list of arrays. -/
theorem C1_counterexample :
    (IpoptProblemWrapper.init pBase).map
      (fun w => match w.constraints [0] with
        | .ok v => v.isEmpty
        | .error _ => false) = .ok false := rfl

/-! ## C2 -/

theorem probeCons_length (cons : List ConstraintDict) (x0 : List ℚ)
    (pairs : List (Coo × Bool)) (h : probeCons cons x0 = .ok pairs) :
    pairs.length = cons.length := by
  induction cons generalizing pairs with
  | nil =>
    simp only [probeCons] at h
    cases h
    rfl
  | cons c rest ih =>
    simp only [probeCons] at h
    split at h
    · exact absurd h (by simp)
    · split at h
      · exact absurd h (by simp)
      · rename_i ps hps
        cases h
        simp [ih ps hps]

theorem evalConJacs_map (eps : ℚ) (x : List ℚ) (cons : List ConstraintDict)
    (pairs : List (Coo × Bool)) (vs : List (List ℚ))
    (hlen : cons.length = pairs.length)
    (h : List.Forall₂ (fun (cq : ConstraintDict × (Coo × Bool)) (v : List ℚ) =>
      ∃ jv, resolveConJac cq.1 eps x cq.1.args cq.1.kwargs = .ok jv ∧
        conJacStep cq.2.2 jv = .ok v) (cons.zip pairs) vs) :
    evalConJacs (pairs.map (fun q => q.2))
      (cons.map (fun c => resolveConJac c eps))
      (cons.map (fun c => c.args)) (cons.map (fun c => c.kwargs)) x = .ok vs := by
  induction cons generalizing pairs vs with
  | nil =>
    cases pairs with
    | nil =>
      cases h
      rfl
    | cons q qs => exact absurd hlen (by simp)
  | cons c cs ih =>
    cases pairs with
    | nil => exact absurd hlen (by simp)
    | cons q qs =>
      rw [List.zip_cons_cons] at h
      cases vs with
      | nil => cases h
      | cons v vtl =>
        cases h with
        | cons hr htl =>
          obtain ⟨jv, hjv, hstep⟩ := hr
          have hjv' : resolveConJac c eps x c.args c.kwargs = .ok jv := hjv
          have hstep' : conJacStep q.2 jv = .ok v := hstep
          simp only [List.map_cons, evalConJacs]
          rw [hjv']
          simp only [hstep', ih qs vtl (by simpa using hlen) htl]

theorem flatten_length_zip (cons : List ConstraintDict)
    (pairs : List (Coo × Bool)) (vs : List (List ℚ))
    (hlen : cons.length = pairs.length)
    (h : List.Forall₂ (fun (cq : ConstraintDict × (Coo × Bool)) (v : List ℚ) =>
      v.length = cq.2.1.data.length) (cons.zip pairs) vs) :
    vs.flatten.length = (pairs.map (fun q => q.1.data.length)).sum := by
  induction cons generalizing pairs vs with
  | nil =>
    cases pairs with
    | nil =>
      cases h
      rfl
    | cons q qs => exact absurd hlen (by simp)
  | cons c cs ih =>
    cases pairs with
    | nil => exact absurd hlen (by simp)
    | cons q qs =>
      rw [List.zip_cons_cons] at h
      cases vs with
      | nil => cases h
      | cons v vtl =>
        cases h with
        | cons hr htl =>
          have hr' : v.length = q.1.data.length := hr
          simp only [List.flatten_cons, List.length_append, List.map_cons,
            List.sum_cons, hr']
          rw [ih qs vtl (by simpa using hlen) htl]

theorem cooVstack_row_length (blocks : List Coo) (J : Coo)
    (h : cooVstack blocks = .ok J) :
    J.row.length = (blocks.map (fun b => b.data.length)).sum := by
  cases blocks with
  | nil => exact absurd h (by simp [cooVstack])
  | cons b0 bs =>
    simp only [cooVstack] at h
    split at h
    · cases h
      exact offsetRows_length _ _
    · exact absurd h (by simp)

/-- C2: For an adapter built over a nonempty constraint list with the
structure frozen from the probe at `x0`, `jacobianstructure()` is a pure
read of the `(row, col)` pair frozen at construction (hence identical on
every call), and for every `x` at which each constraint's Jacobian has the
same shape/sparsity as at the probe (formally: the resolved Jacobian of
constraint `i` at `x` yields, under its sparse/dense flag, a value vector
of the same length as the probed block's `data`), `jacobian(x)` returns
the stacked vector of those values, whose length equals the length of the
row-index array.  (For an empty constraint list `jacobian(x)` raises
instead of returning the empty vector — see the counterexample; hence the
nonemptiness hypothesis.) -/
theorem C2_jacobian_aligned_with_structure (p : WrapperParams)
    (w : IpoptProblemWrapper) (pairs : List (Coo × Bool)) (J : Coo)
    (x0 x : List ℚ) (vs : List (List ℚ))
    (hw : IpoptProblemWrapper.init p = .ok w)
    (hne : p.constraints ≠ [])
    (hprobe : probeCons p.constraints x0 = .ok pairs)
    (hvst : cooVstack (pairs.map (fun q => q.1)) = .ok J)
    (hsj : p.sparse_jacs = pairs.map (fun q => q.2))
    (hrow : p.jac_nnz_row = J.row) (hcol : p.jac_nnz_col = J.col)
    (hjac : List.Forall₂ (fun (cq : ConstraintDict × (Coo × Bool)) (v : List ℚ) =>
      (∃ jv, resolveConJac cq.1 p.eps x cq.1.args cq.1.kwargs = .ok jv ∧
        conJacStep cq.2.2 jv = .ok v) ∧ v.length = cq.2.1.data.length)
      (p.constraints.zip pairs) vs) :
    _get_sparse_jacobian_structure p.constraints x0 =
      .ok (pairs.map (fun q => q.2), J.row, J.col) ∧
    w.jacobianstructure = (J.row, J.col) ∧
    w.jacobian x = .ok vs.flatten ∧
    vs.flatten.length = J.row.length := by
  obtain ⟨_, _, _, _, hjacs, _, _, hargs, hkw, hsjw, hstruct⟩ := init_eq p w hw
  have hlen : p.constraints.length = pairs.length :=
    (probeCons_length _ _ _ hprobe).symm
  constructor
  · cases hc : p.constraints with
    | nil => exact absurd hc hne
    | cons c cs =>
      rw [hc] at hprobe
      simp only [_get_sparse_jacobian_structure, hprobe, hvst]
  constructor
  · unfold IpoptProblemWrapper.jacobianstructure
    rw [hstruct, hrow, hcol]
  have hvs : vs ≠ [] := by
    intro hnil
    rw [hnil] at hjac
    have := List.forall₂_nil_right_iff.mp hjac
    have : p.constraints = [] := by
      cases hc : p.constraints with
      | nil => rfl
      | cons c cs =>
        rw [hc] at this hlen
        cases pairs with
        | nil => exact absurd hlen (by simp)
        | cons q qs => simp [List.zip_cons_cons] at this
    exact hne this
  constructor
  · unfold IpoptProblemWrapper.jacobian
    rw [hjacs, hargs, hkw, hsjw, hsj,
      evalConJacs_map p.eps x p.constraints pairs vs hlen
        (hjac.imp (fun _ _ h => h.1))]
    unfold np_hstack
    cases vs with
    | nil => exact absurd rfl hvs
    | cons v vs' => rfl
  · rw [flatten_length_zip p.constraints pairs vs hlen
        (hjac.imp (fun _ _ h => h.2)),
      cooVstack_row_length _ _ hvst, List.map_map]
    rfl

/-- C2 witness: the adapter over `pC2` (one dense constraint, structure
probed at `x0 = [0, 0]`), evaluated at `x = [5, 7]`. -/
theorem C2_witness :
    _get_sparse_jacobian_structure [exConJ] [0, 0] =
      .ok ([false], exJ.row, exJ.col) ∧
    (wrapperOf pC2).jacobianstructure = (exJ.row, exJ.col) ∧
    (wrapperOf pC2).jacobian [5, 7] = .ok [5, 1] ∧
    ([5, 1] : List ℚ).length = exJ.row.length := by
  have h := C2_jacobian_aligned_with_structure pC2 (wrapperOf pC2)
    [(exCooJ, false)] exJ [0, 0] [5, 7] [[5, 1]] rfl (by simp [pC2]) rfl rfl
    rfl rfl rfl (.cons ⟨⟨.arr (.one [5, 1]), rfl, rfl⟩, rfl⟩ .nil)
  exact h

/-- C2 counterexample: over an empty constraint list the claim predicts
`jacobian(x)` returns a vector of length `len(row) = 0`, but it raises,
because `np.hstack` rejects an empty list of arrays. -/
theorem C2_counterexample :
    (IpoptProblemWrapper.init pBase).map
      (fun w => match w.jacobian [0] with
        | .ok v => decide (v.length = w.jacobianstructure.1.length)
        | .error _ => false) = .ok false := rfl

/-! ## C3 -/

theorem getD_mem_of_lt {α : Type} (l : List α) (i : Nat) (d : α)
    (h : i < l.length) : l.getD i d ∈ l := by
  induction l generalizing i with
  | nil => exact absurd h (by simp)
  | cons a tl ih =>
    cases i with
    | zero => exact List.mem_cons_self _ _
    | succ i' =>
      exact List.mem_cons_of_mem _ (ih i' (Nat.lt_of_succ_lt_succ h))

theorem zipWith_rows_mem (f : ℚ → ℚ → ℚ) (A : Mat) :
    ∀ (B : Mat) (r : List ℚ),
      r ∈ List.zipWith (fun ra rb => List.zipWith f ra rb) A B →
      ∃ ra rb, ra ∈ A ∧ rb ∈ B ∧ r = List.zipWith f ra rb := by
  induction A with
  | nil => intro B r hr; exact absurd hr (by simp)
  | cons a tlA ih =>
    intro B r hr
    cases B with
    | nil => exact absurd hr (by simp)
    | cons b tlB =>
      rw [List.zipWith_cons_cons] at hr
      cases List.mem_cons.mp hr with
      | inl h => exact ⟨a, b, List.mem_cons_self _ _, List.mem_cons_self _ _, h⟩
      | inr h =>
        obtain ⟨ra, rb, hra, hrb, hr⟩ := ih tlB r h
        exact ⟨ra, rb, List.mem_cons_of_mem _ hra, List.mem_cons_of_mem _ hrb, hr⟩

theorem isMatN_map_length (M : Mat) (n : Nat) (h : IsMatN n M) :
    M.map List.length = List.replicate n n := by
  rw [List.eq_replicate_iff]
  refine ⟨by simp [h.1], ?_⟩
  intro b hb
  obtain ⟨r, hr, rfl⟩ := List.mem_map.mp hb
  exact h.2 r hr

theorem matAddT_isMatN (A B : Mat) (n : Nat) (hA : IsMatN n A)
    (hB : IsMatN n B) : IsMatN n (matAddT A B) := by
  constructor
  · unfold matAddT
    rw [List.length_zipWith, hA.1, hB.1]
    exact Nat.min_self n
  · intro r hr
    obtain ⟨ra, rb, hra, hrb, rfl⟩ := zipWith_rows_mem _ A B r hr
    rw [List.length_zipWith, hA.2 ra hra, hB.2 rb hrb]
    exact Nat.min_self n

theorem matAdd_of_isMatN (A B : Mat) (n : Nat) (hA : IsMatN n A)
    (hB : IsMatN n B) : matAdd A B = .ok (matAddT A B) := by
  have hshape : sameShape A B = true := by
    unfold sameShape
    rw [isMatN_map_length A n hA, isMatN_map_length B n hB]
    exact beq_self_eq_true _
  unfold matAdd matAddT
  rw [if_pos hshape]

theorem matScale_isMatN (c : ℚ) (M : Mat) (n : Nat) (h : IsMatN n M) :
    IsMatN n (matScale c M) := by
  constructor
  · simp [matScale, h.1]
  · intro r hr
    simp only [matScale, List.mem_map] at hr
    obtain ⟨r0, hr0, rfl⟩ := hr
    simp [h.2 r0 hr0]

theorem trilIndices_mem (n : Nat) :
    ∀ ij ∈ trilIndices n, ij.1 < n ∧ ij.2 < n := by
  intro ij hij
  unfold trilIndices at hij
  simp only [List.mem_flatMap, List.mem_map, List.mem_range] at hij
  obtain ⟨i, hi, j, hj, rfl⟩ := hij
  exact ⟨hi, by omega⟩

theorem trilIndices_split (m : Nat) :
    trilIndices (m + 1) =
      trilIndices m ++ (List.range (m + 1)).map (fun j => (m, j)) := by
  unfold trilIndices
  rw [List.range_succ, List.flatMap_append]
  simp only [List.flatMap_cons, List.flatMap_nil, List.append_nil]
  rw [List.range_succ]

theorem trilIndices_two_mul_length (n : Nat) :
    2 * (trilIndices n).length = n * (n + 1) := by
  induction n with
  | zero => rfl
  | succ m ih =>
    rw [trilIndices_split, List.length_append, List.length_map,
      List.length_range]
    have hring : (m + 1) * (m + 1 + 1) = m * (m + 1) + 2 * (m + 1) := by ring
    omega

theorem trilIndices_length (n : Nat) :
    (trilIndices n).length = n * (n + 1) / 2 := by
  have := trilIndices_two_mul_length n
  omega

theorem trilLoop_ok (H : Mat) (n : Nat) (hH : IsMatN n H) :
    ∀ (idxs : List (Nat × Nat)), (∀ ij ∈ idxs, ij.1 < n ∧ ij.2 < n) →
    trilLoop H idxs = .ok (idxs.map (fun ij => matEntry H ij.1 ij.2)) := by
  intro idxs hb
  induction idxs with
  | nil => rfl
  | cons ij rest ih =>
    obtain ⟨i, j⟩ := ij
    obtain ⟨hi, hj⟩ := hb (i, j) (List.mem_cons_self _ _)
    have hiH : i < H.length := by rw [hH.1]; exact hi
    have hjr : j < (H.getD i []).length := by
      rw [hH.2 _ (getD_mem_of_lt H i [] hiH)]
      exact hj
    have hrow : H[i]? = some (H.getD i []) := by
      rw [List.getElem?_eq_getElem hiH, List.getD_eq_getElem _ _ hiH]
    have hcolv : (H.getD i [])[j]? = some ((H.getD i []).getD j 0) := by
      rw [List.getElem?_eq_getElem hjr, List.getD_eq_getElem _ _ hjr]
    simp only [trilLoop, List.map_cons, hrow, hcolv,
      ih (fun p hp => hb p (List.mem_cons_of_mem _ hp))]
    rfl

theorem trilExtract_ok (H : Mat) (n : Nat) (hH : IsMatN n H) :
    trilExtract H n =
      .ok ((trilIndices n).map (fun ij => matEntry H ij.1 ij.2)) :=
  trilLoop_ok H n hH (trilIndices n) (trilIndices_mem n)

theorem segsBy_length (ds : List Nat) (l : List ℚ) :
    (segsBy ds l).length = ds.length := by
  induction ds generalizing l with
  | nil => rfl
  | cons d ds ih => simp [segsBy, ih]

theorem npSplitFrom_cumsumFrom (ds : List Nat) (dlast : Nat) (l : List ℚ) :
    ∀ acc : Nat, l.length ≤ acc + ds.sum + dlast →
    npSplitFrom l acc (cumsumFrom acc ds) = segsBy (ds ++ [dlast]) (l.drop acc) := by
  induction ds with
  | nil =>
    intro acc h
    simp only [cumsumFrom, npSplitFrom, List.nil_append, segsBy]
    rw [List.take_of_length_le (by rw [List.length_drop]; simp at h; omega)]
  | cons d ds ih =>
    intro acc h
    simp only [cumsumFrom, npSplitFrom, List.cons_append, segsBy]
    rw [Nat.add_sub_cancel_left, List.drop_drop]
    rw [ih (acc + d) (by simp at h ⊢; omega)]
    rfl

theorem npSplit_cumsum_eq_segsBy (ds : List Nat) (l : List ℚ)
    (hne : ds ≠ []) (h : l.length ≤ ds.sum) :
    npSplit l (cumsum ds.dropLast) = segsBy ds l := by
  have hds := List.dropLast_append_getLast hne
  have hsum : ds.dropLast.sum + ds.getLast hne = ds.sum := by
    conv_rhs => rw [← hds]
    simp
  unfold npSplit cumsum
  rw [npSplitFrom_cumsumFrom ds.dropLast (ds.getLast hne) l 0 (by omega)]
  rw [hds, List.drop_zero]

theorem hessLoop_nil (x : List ℚ) (H : Mat) (as : List (List ℚ)) (ks : List Kw)
    (ls : List (List ℚ)) : hessLoop x H [] as ks ls = .ok H := by
  cases as <;> cases ks <;> cases ls <;> rfl

theorem specConHessSum_nil (x : List ℚ) (H : Mat)
    (hfs : List (List ℚ → List ℚ → List ℚ → Kw → Mat))
    (segs : List (List ℚ)) : specConHessSum x H [] hfs segs = H := by
  cases hfs <;> cases segs <;> rfl

theorem forall₂_hess_zip (x : List ℚ) (n : Nat) (cons : List ConstraintDict) :
    ∀ (chfs : List (List ℚ → List ℚ → List ℚ → Kw → Mat))
      (segs : List (List ℚ)),
    List.Forall₂ (fun c hf => c.hess = some hf) cons chfs →
    List.Forall₂ (fun (c : ConstraintDict) hz =>
      IsMatN n (hz.1 x hz.2 c.args c.kwargs)) cons (chfs.zip segs) →
    segs.length = cons.length →
    List.Forall₂ (fun (c : ConstraintDict) hz =>
      c.hess = some hz.1 ∧ IsMatN n (hz.1 x hz.2 c.args c.kwargs))
      cons (chfs.zip segs) := by
  induction cons with
  | nil =>
    intro chfs segs h1 _ hlen
    have hs : segs = [] := List.length_eq_zero.mp (by simpa using hlen)
    have hc : chfs = [] := List.forall₂_nil_left_iff.mp h1
    subst hs
    subst hc
    exact .nil
  | cons c cs ih =>
    intro chfs segs h1 h2 hlen
    cases chfs with
    | nil => cases h1
    | cons hf hfs =>
      cases segs with
      | nil => exact absurd hlen (by simp)
      | cons seg sgs =>
        rw [List.zip_cons_cons] at h2 ⊢
        cases h1 with
        | cons hhd1 htl1 =>
          cases h2 with
          | cons hhd2 htl2 =>
            exact .cons ⟨hhd1, hhd2⟩ (ih hfs sgs htl1 htl2 (by simpa using hlen))

theorem hessLoop_spec (x : List ℚ) (n : Nat) (cons : List ConstraintDict) :
    ∀ (chfs : List (List ℚ → List ℚ → List ℚ → Kw → Mat))
      (segs : List (List ℚ)) (H : Mat),
    IsMatN n H →
    List.Forall₂ (fun (c : ConstraintDict) hz =>
      c.hess = some hz.1 ∧ IsMatN n (hz.1 x hz.2 c.args c.kwargs))
      cons (chfs.zip segs) →
    chfs.length = cons.length → segs.length = cons.length →
    hessLoop x H (cons.map (fun c => c.hess)) (cons.map (fun c => c.args))
        (cons.map (fun c => c.kwargs)) segs =
      .ok (specConHessSum x H cons chfs segs) ∧
    IsMatN n (specConHessSum x H cons chfs segs) := by
  induction cons with
  | nil =>
    intro chfs segs H hH _ _ hlen2
    have : segs = [] := List.length_eq_zero.mp (by simpa using hlen2)
    subst this
    exact ⟨rfl, hH⟩
  | cons c cs ih =>
    intro chfs segs H hH hB hlen1 hlen2
    cases chfs with
    | nil => exact absurd hlen1 (by simp)
    | cons hf hfs =>
      cases segs with
      | nil => exact absurd hlen2 (by simp)
      | cons seg sgs =>
        rw [List.zip_cons_cons] at hB
        cases hB with
        | cons hhd htl =>
          obtain ⟨hhess, hshape⟩ := hhd
          have hhess' : c.hess = some hf := hhess
          have hshape' : IsMatN n (hf x seg c.args c.kwargs) := hshape
          simp only [List.map_cons, hessLoop, specConHessSum, hhess',
            matAdd_of_isMatN H (hf x seg c.args c.kwargs) n hH hshape']
          exact ih hfs sgs (matAddT H (hf x seg c.args c.kwargs))
            (matAddT_isMatN _ _ n hH hshape') htl (by simpa using hlen1)
            (by simpa using hlen2)

/-- C3: For an adapter whose objective and constraints all supply Hessians
of shape `n x n` (with `n = len(x)`), `hessian(x, lagrange, obj_factor)`
scales the objective Hessian by `obj_factor`, splits the multiplier vector
at the cumulative boundaries `d_1, d_1+d_2, ...` into per-constraint
segments, adds each constraint's Hessian evaluated at `(x, its segment)`
with its own args/kwargs, and returns exactly the lower-triangular entries
of the sum in row-major order over the triangular index set — a vector of
length `n(n+1)/2`. -/
theorem C3_hessian_lower_triangular (p : WrapperParams)
    (w : IpoptProblemWrapper) (oh : List ℚ → List ℚ → Kw → Mat)
    (chfs : List (List ℚ → List ℚ → List ℚ → Kw → Mat))
    (x lagrange : List ℚ) (obj_factor : ℚ)
    (hw : IpoptProblemWrapper.init p = .ok w)
    (hoh : p.hess = some oh)
    (hch : List.Forall₂ (fun c hf => c.hess = some hf) p.constraints chfs)
    (hdims : p.con_dims.length = p.constraints.length)
    (hlag : lagrange.length = p.con_dims.sum)
    (hohN : IsMatN x.length (oh x p.args p.kwargs))
    (hshapes : List.Forall₂ (fun (c : ConstraintDict) hz =>
      IsMatN x.length (hz.1 x hz.2 c.args c.kwargs))
      p.constraints (chfs.zip (segsBy p.con_dims lagrange))) :
    w.hessian x lagrange obj_factor =
      .ok ((trilIndices x.length).map (fun ij =>
        matEntry (specConHessSum x
          (matScale obj_factor (oh x p.args p.kwargs)) p.constraints chfs
          (segsBy p.con_dims lagrange)) ij.1 ij.2)) ∧
    ((trilIndices x.length).map (fun ij =>
      matEntry (specConHessSum x
        (matScale obj_factor (oh x p.args p.kwargs)) p.constraints chfs
        (segsBy p.con_dims lagrange)) ij.1 ij.2)).length =
      x.length * (x.length + 1) / 2 := by
  obtain ⟨hargsw, hkww, hohw, _, _, hhessw, hdimsw, hargsLw, hkwLw, _, _⟩ :=
    init_eq p w hw
  have hseglen : (segsBy p.con_dims lagrange).length = p.constraints.length := by
    rw [segsBy_length]; exact hdims
  have hchlen : chfs.length = p.constraints.length := hch.length_eq.symm
  have hB := forall₂_hess_zip x x.length p.constraints chfs
    (segsBy p.con_dims lagrange) hch hshapes hseglen
  have hH0 : IsMatN x.length (matScale obj_factor (oh x p.args p.kwargs)) :=
    matScale_isMatN _ _ _ hohN
  have hloop := hessLoop_spec x x.length p.constraints chfs
    (segsBy p.con_dims lagrange) (matScale obj_factor (oh x p.args p.kwargs))
    hH0 hB hchlen hseglen
  have hmain : hessLoop x (matScale obj_factor (oh x p.args p.kwargs))
      (p.constraints.map (fun c => c.hess))
      (p.constraints.map (fun c => c.args))
      (p.constraints.map (fun c => c.kwargs))
      (npSplit lagrange (cumsum p.con_dims.dropLast)) =
      .ok (specConHessSum x (matScale obj_factor (oh x p.args p.kwargs))
        p.constraints chfs (segsBy p.con_dims lagrange)) := by
    cases hc : p.constraints with
    | nil =>
      rw [hc] at hch
      have hcf : chfs = [] := List.forall₂_nil_left_iff.mp hch
      subst hcf
      simp only [List.map_nil, hessLoop_nil, specConHessSum_nil]
    | cons c cs =>
      have hdne : p.con_dims ≠ [] := by
        intro hnil
        rw [hc, hnil] at hdims
        exact absurd hdims.symm (by simp)
      rw [npSplit_cumsum_eq_segsBy p.con_dims lagrange hdne (le_of_eq hlag)]
      rw [hc] at hloop
      exact hloop.1
  constructor
  · unfold IpoptProblemWrapper.hessian
    rw [hohw, hoh]
    simp only [hargsw, hkww, hdimsw, hhessw, hargsLw, hkwLw, hmain]
    exact trilExtract_ok _ _ hloop.2
  · rw [List.length_map, trilIndices_length]

/-- C3 witness: the adapter over `pC3` (`n = 1`, objective Hessian `[[3]]`,
one constraint Hessian `[[lagr_0]]`) at `x = [2]`, `lagrange = [5]`,
`obj_factor = 2`: the packed lower triangle is `[2*3 + 5] = [11]` of
length `1 = 1*2/2`. -/
theorem C3_witness :
    (wrapperOf pC3).hessian [2] [5] 2 = .ok [11] ∧
    ([11] : List ℚ).length = 1 * (1 + 1) / 2 := by
  have h := C3_hessian_lower_triangular pC3 (wrapperOf pC3)
    (fun _ _ _ => [[3]]) [fun _ l _ _ => [[l.headD 0]]] [2] [5] 2 rfl rfl
    (.cons rfl .nil) rfl rfl (by decide) (.cons (by decide) .nil)
  refine ⟨?_, rfl⟩
  rw [h.1]
  have ht : trilIndices ([2] : List ℚ).length = [(0, 0)] := rfl
  rw [ht]
  norm_num [matEntry, specConHessSum, matAddT, matScale, segsBy, pC3, pBase,
    exHessCon]

/-! ## C4 -/

/-- C4: For every constraint list whose dimension probes succeed with
dimensions `d_1..d_m`, the constraint-bound assembly emits `d_i` zeros as
lower bounds per constraint, and as upper bounds `d_i` zeros for an `eq`
tag or `d_i` copies of the sentinel `1e19` for an `ineq` tag; a constraint
with any other tag makes it raise `ValueError`.  Consequently `cl == cu`
for an all-equality list, and `cl` all zero / `cu` all sentinel for an
all-inequality list. -/
theorem C4_constraint_bounds (cons : List ConstraintDict) (ds : List Nat)
    (x0 : List ℚ)
    (hd : List.Forall₂ (fun c d => conDim c x0 = .ok d) cons ds) :
    ((∀ c ∈ cons, c.ctype = "eq" ∨ c.ctype = "ineq") →
      get_constraint_bounds cons x0 INF19 =
        .ok (List.replicate ds.sum (0 : ℚ),
          ((cons.zip ds).map (fun cd =>
            if cd.1.ctype = "eq" then List.replicate cd.2 (0 : ℚ)
            else List.replicate cd.2 INF19)).flatten)) ∧
    ((∀ c ∈ cons, c.ctype = "eq") →
      ∃ b, get_constraint_bounds cons x0 INF19 = .ok (b, b)) ∧
    ((∀ c ∈ cons, c.ctype = "ineq") →
      get_constraint_bounds cons x0 INF19 =
        .ok (List.replicate ds.sum (0 : ℚ), List.replicate ds.sum INF19)) ∧
    ((∃ c ∈ cons, c.ctype ≠ "eq" ∧ c.ctype ≠ "ineq") →
      ∃ c ∈ cons, c.ctype ≠ "eq" ∧ c.ctype ≠ "ineq" ∧
        get_constraint_bounds cons x0 INF19 =
          .error ("ValueError: " ++ c.ctype)) := by
  refine ⟨?_, ?_, ?_, ?_⟩
  · induction hd with
    | nil => intro _; rfl
    | @cons c d cs dss hcd htl ih =>
      intro htypes
      have hrest := ih (fun c' hc' => htypes c' (List.mem_cons_of_mem _ hc'))
      simp only [get_constraint_bounds, hcd, hrest, List.zip_cons_cons,
        List.map_cons, List.flatten_cons, List.sum_cons]
      cases htypes c (List.mem_cons_self _ _) with
      | inl heq =>
        rw [if_pos heq, if_pos heq, List.replicate_add]
      | inr hineq =>
        have hne : ¬ c.ctype = "eq" := by rw [hineq]; decide
        rw [if_neg hne, if_pos hineq, if_neg hne, List.replicate_add]
  · induction hd with
    | nil => intro _; exact ⟨[], rfl⟩
    | @cons c d cs dss hcd htl ih =>
      intro htypes
      obtain ⟨b, hb⟩ := ih (fun c' hc' => htypes c' (List.mem_cons_of_mem _ hc'))
      have heq := htypes c (List.mem_cons_self _ _)
      refine ⟨List.replicate d (0 : ℚ) ++ b, ?_⟩
      simp only [get_constraint_bounds, hcd, hb, if_pos heq]
  · induction hd with
    | nil => intro _; rfl
    | @cons c d cs dss hcd htl ih =>
      intro htypes
      have hrest := ih (fun c' hc' => htypes c' (List.mem_cons_of_mem _ hc'))
      have hineq := htypes c (List.mem_cons_self _ _)
      have hne : ¬ c.ctype = "eq" := by rw [hineq]; decide
      simp only [get_constraint_bounds, hcd, hrest, List.sum_cons, if_neg hne,
        if_pos hineq, List.replicate_add]
  · induction hd with
    | nil =>
      intro hbad
      obtain ⟨c, hc, _⟩ := hbad
      exact absurd hc (by simp)
    | @cons c d cs dss hcd htl ih =>
      intro hbad
      by_cases hcbad : c.ctype ≠ "eq" ∧ c.ctype ≠ "ineq"
      · refine ⟨c, List.mem_cons_self _ _, hcbad.1, hcbad.2, ?_⟩
        simp only [get_constraint_bounds, hcd, if_neg hcbad.1, if_neg hcbad.2]
      · have hcgood : c.ctype = "eq" ∨ c.ctype = "ineq" := by
          by_cases h1 : c.ctype = "eq"
          · exact Or.inl h1
          · by_cases h2 : c.ctype = "ineq"
            · exact Or.inr h2
            · exact absurd ⟨h1, h2⟩ hcbad
        have hbad' : ∃ c' ∈ cs, c'.ctype ≠ "eq" ∧ c'.ctype ≠ "ineq" := by
          obtain ⟨c', hc', hb1, hb2⟩ := hbad
          cases List.mem_cons.mp hc' with
          | inl h =>
            subst h
            exact absurd ⟨hb1, hb2⟩ hcbad
          | inr h => exact ⟨c', h, hb1, hb2⟩
        obtain ⟨c', hc', hb1, hb2, herr⟩ := ih hbad'
        refine ⟨c', List.mem_cons_of_mem _ hc', hb1, hb2, ?_⟩
        cases hcgood with
        | inl heq =>
          simp only [get_constraint_bounds, hcd, if_pos heq, herr]
        | inr hineq =>
          have hne : ¬ c.ctype = "eq" := by rw [hineq]; decide
          simp only [get_constraint_bounds, hcd, if_neg hne, if_pos hineq, herr]

/-- C4 witness: over `[exCon1, exCon2]` (an `eq` constraint of dimension 1
and an `ineq` constraint of dimension 2) at `x0 = [0]`, and the
`ValueError` over `[exCon1, exConBad]` (tag `foo`). -/
theorem C4_witness :
    get_constraint_bounds [exCon1, exCon2] [0] INF19 =
      .ok ([0, 0, 0], [0, INF19, INF19]) ∧
    get_constraint_bounds [exCon1, exConBad] [0] INF19 =
      .error ("ValueError: " ++ exConBad.ctype) := by
  constructor
  · exact (C4_constraint_bounds [exCon1, exCon2] [1, 2] [0]
      (.cons rfl (.cons rfl .nil))).1 (by decide)
  · obtain ⟨c, hc, hb1, _, herr⟩ :=
      (C4_constraint_bounds [exCon1, exConBad] [1, 1] [0]
        (.cons rfl (.cons rfl .nil))).2.2.2
        ⟨exConBad, List.mem_cons_of_mem _ (List.mem_cons_self _ _),
          by decide, by decide⟩
    cases List.mem_cons.mp hc with
    | inl h =>
      rw [h] at hb1
      exact absurd rfl hb1
    | inr h =>
      cases List.mem_cons.mp h with
      | inl h2 =>
        rw [h2] at herr
        exact herr
      | inr h2 => exact absurd h2 (by simp)

/-! ## C5 -/

theorem resolveObjFunJac_ok (p : WrapperParams) (hj : p.jac ≠ .falseV) :
    ∃ fj, resolveObjFunJac p = .ok fj := by
  cases hp : p.jac with
  | noneV => exact ⟨_, by simp only [resolveObjFunJac, hp]; rfl⟩
  | trueV => exact ⟨_, by simp only [resolveObjFunJac, hp]; rfl⟩
  | call g => exact ⟨_, by simp only [resolveObjFunJac, hp]; rfl⟩
  | falseV => exact absurd hp hj

theorem processCons_error_of_mismatch
    (objHess : Option (List ℚ → List ℚ → Kw → Mat)) (eps : ℚ)
    (cons : List ConstraintDict)
    (hvalid : ∀ c ∈ cons, c.jac ≠ .falseV)
    (hmis : ∃ c ∈ cons, hessMismatch objHess c.hess = true) :
    processCons objHess eps cons = .error hessPartialMsg := by
  induction cons with
  | nil =>
    obtain ⟨c, hc, _⟩ := hmis
    exact absurd hc (by simp)
  | cons c cs ih =>
    have hcj := hvalid c (List.mem_cons_self _ _)
    by_cases hm : hessMismatch objHess c.hess = true
    · cases hc : c.jac with
      | falseV => exact absurd hc hcj
      | absent => simp only [processCons, hc, if_pos hm]
      | noneV => simp only [processCons, hc, if_pos hm]
      | trueV => simp only [processCons, hc, if_pos hm]
      | call j => simp only [processCons, hc, if_pos hm]
    · have htail : ∃ c' ∈ cs, hessMismatch objHess c'.hess = true := by
        obtain ⟨c', hc', hm'⟩ := hmis
        cases List.mem_cons.mp hc' with
        | inl h =>
          subst h
          exact absurd hm' hm
        | inr h => exact ⟨c', h, hm'⟩
      have hrest := ih (fun c' hc' => hvalid c' (List.mem_cons_of_mem _ hc'))
        htail
      cases hc : c.jac with
      | falseV => exact absurd hc hcj
      | absent => simp only [processCons, hc, if_neg hm, hrest]
      | noneV => simp only [processCons, hc, if_neg hm, hrest]
      | trueV => simp only [processCons, hc, if_neg hm, hrest]
      | call j => simp only [processCons, hc, if_neg hm, hrest]

theorem processCons_ok_of_consistent
    (objHess : Option (List ℚ → List ℚ → Kw → Mat)) (eps : ℚ)
    (cons : List ConstraintDict)
    (hvalid : ∀ c ∈ cons, c.jac ≠ .falseV)
    (hcons : ∀ c ∈ cons, hessMismatch objHess c.hess = false) :
    ∃ ls, processCons objHess eps cons = .ok ls := by
  induction cons with
  | nil => exact ⟨_, rfl⟩
  | cons c cs ih =>
    have hcj := hvalid c (List.mem_cons_self _ _)
    have hm : ¬ hessMismatch objHess c.hess = true := by
      rw [hcons c (List.mem_cons_self _ _)]
      decide
    obtain ⟨ls, hls⟩ := ih (fun c' hc' => hvalid c' (List.mem_cons_of_mem _ hc'))
      (fun c' hc' => hcons c' (List.mem_cons_of_mem _ hc'))
    cases hc : c.jac with
    | falseV => exact absurd hc hcj
    | absent => exact ⟨_, by simp only [processCons, hc, if_neg hm, hls]; rfl⟩
    | noneV => exact ⟨_, by simp only [processCons, hc, if_neg hm, hls]; rfl⟩
    | trueV => exact ⟨_, by simp only [processCons, hc, if_neg hm, hls]; rfl⟩
    | call j => exact ⟨_, by simp only [processCons, hc, if_neg hm, hls]; rfl⟩

/-- C5: Constructing the adapter raises `NotImplementedError` whenever
Hessian information is partial — an objective Hessian with some constraint
supplying none, or a constraint Hessian with no objective Hessian — and
construction succeeds (with respect to this check) when neither the
objective nor any constraint supplies one.  (The hypotheses keep the
independent checks, `hessp` and the `jac` entries, from firing first.) -/
theorem C5_partial_hessian_rejected (p : WrapperParams)
    (hp : p.hessp = none) (hj : p.jac ≠ .falseV)
    (hcj : ∀ c ∈ p.constraints, c.jac ≠ .falseV) :
    (((p.hess.isSome = true ∧ ∃ c ∈ p.constraints, c.hess = none) ∨
      (p.hess = none ∧ ∃ c ∈ p.constraints, c.hess.isSome = true)) →
      IpoptProblemWrapper.init p = .error hessPartialMsg) ∧
    ((p.hess = none ∧ ∀ c ∈ p.constraints, c.hess = none) →
      ∃ w, IpoptProblemWrapper.init p = .ok w) := by
  obtain ⟨fj, hfj⟩ := resolveObjFunJac_ok p hj
  obtain ⟨f, j⟩ := fj
  constructor
  · intro hcase
    have hmis : ∃ c ∈ p.constraints, hessMismatch p.hess c.hess = true := by
      cases hcase with
      | inl h =>
        obtain ⟨hs, c, hc, hcn⟩ := h
        exact ⟨c, hc, by simp [hessMismatch, hs, hcn]⟩
      | inr h =>
        obtain ⟨hs, c, hc, hcn⟩ := h
        exact ⟨c, hc, by simp [hessMismatch, hs, hcn]⟩
    have herr := processCons_error_of_mismatch p.hess p.eps p.constraints hcj hmis
    simp only [IpoptProblemWrapper.init, hp, hfj, herr]
  · intro hcase
    have hcons : ∀ c ∈ p.constraints, hessMismatch p.hess c.hess = false := by
      intro c hc
      simp [hessMismatch, hcase.1, hcase.2 c hc]
    obtain ⟨ls, hls⟩ := processCons_ok_of_consistent p.hess p.eps p.constraints
      hcj hcons
    exact ⟨_, by simp only [IpoptProblemWrapper.init, hp, hfj, hls]; rfl⟩

/-- C5 witness: `pC5bad` (objective Hessian, constraint without one) is
rejected with the partial-Hessian message; `pC5good` (no Hessians at all)
constructs successfully. -/
theorem C5_witness :
    IpoptProblemWrapper.init pC5bad = .error hessPartialMsg ∧
    ∃ w, IpoptProblemWrapper.init pC5good = .ok w := by
  constructor
  · exact (C5_partial_hessian_rejected pC5bad rfl
      (fun h => ObjJac.noConfusion h)
      (fun c hc => by
        rw [List.mem_singleton.mp hc]
        intro h
        exact ConJac.noConfusion h)).1
      (Or.inl ⟨rfl, exCon1, List.mem_cons_self _ _, rfl⟩)
  · exact (C5_partial_hessian_rejected pC5good rfl
      (fun h => ObjJac.noConfusion h)
      (fun c hc => by
        rw [List.mem_singleton.mp hc]
        intro h
        exact ConJac.noConfusion h)).2
      ⟨rfl, fun c hc => by rw [List.mem_singleton.mp hc]; rfl⟩

/-! ## C6 -/

theorem runTrace_nfev (w : IpoptProblemWrapper) :
    ∀ (cs : List MethodCall) (s : WState),
    (w.runTrace s cs).nfev = s.nfev + countObjCalls cs := by
  intro cs
  induction cs with
  | nil => intro s; simp [IpoptProblemWrapper.runTrace, countObjCalls]
  | cons c cs ih =>
    intro s
    rw [IpoptProblemWrapper.runTrace, ih]
    cases c <;>
      simp [IpoptProblemWrapper.runCall, IpoptProblemWrapper.objective,
        IpoptProblemWrapper.gradient, IpoptProblemWrapper.intermediate,
        countObjCalls, List.filter] <;> omega

theorem runTrace_njev (w : IpoptProblemWrapper) :
    ∀ (cs : List MethodCall) (s : WState),
    (w.runTrace s cs).njev = s.njev + countGradCalls cs := by
  intro cs
  induction cs with
  | nil => intro s; simp [IpoptProblemWrapper.runTrace, countGradCalls]
  | cons c cs ih =>
    intro s
    rw [IpoptProblemWrapper.runTrace, ih]
    cases c <;>
      simp [IpoptProblemWrapper.runCall, IpoptProblemWrapper.objective,
        IpoptProblemWrapper.gradient, IpoptProblemWrapper.intermediate,
        countGradCalls, List.filter] <;> omega

theorem runTrace_nit (w : IpoptProblemWrapper) :
    ∀ (cs : List MethodCall) (s : WState),
    (w.runTrace s cs).nit = lastIter cs s.nit := by
  intro cs
  induction cs with
  | nil => intro s; simp [IpoptProblemWrapper.runTrace, lastIter]
  | cons c cs ih =>
    intro s
    rw [IpoptProblemWrapper.runTrace, ih]
    cases c <;>
      simp [IpoptProblemWrapper.runCall, IpoptProblemWrapper.objective,
        IpoptProblemWrapper.gradient, IpoptProblemWrapper.intermediate,
        lastIter, List.foldl]

/-- C6 (amended): For every constructed adapter the counters `nfev`,
`njev`, `nit` start at 0 at construction and are reset only by
constructing a new adapter; after exactly `k` calls to `objective`,
`nfev == k`, and after exactly `j` calls to `gradient`, `njev == j`,
regardless of the `x` arguments or of any other method calls interleaved;
`nfev` and `njev` are monotonically non-decreasing across every method
call.  `nit`, however, is assigned the `iter_count` argument of the most
recent `intermediate` call (0 before the first), so it is non-decreasing
only when the solver reports non-decreasing iteration counts — see the
counterexample for a decreasing reassignment. -/
theorem C6_counters_amended (p : WrapperParams) (w : IpoptProblemWrapper)
    (hw : IpoptProblemWrapper.init p = .ok w) :
    initWState.nfev = 0 ∧ initWState.njev = 0 ∧ initWState.nit = 0 ∧
    (∀ cs : List MethodCall,
      (w.runTrace initWState cs).nfev = countObjCalls cs) ∧
    (∀ cs : List MethodCall,
      (w.runTrace initWState cs).njev = countGradCalls cs) ∧
    (∀ (s : WState) (c : MethodCall),
      s.nfev ≤ (w.runCall s c).nfev ∧ s.njev ≤ (w.runCall s c).njev) ∧
    (∀ cs : List MethodCall,
      (w.runTrace initWState cs).nit = lastIter cs 0) := by
  refine ⟨rfl, rfl, rfl, ?_, ?_, ?_, ?_⟩
  · intro cs
    rw [runTrace_nfev]
    simp [initWState]
  · intro cs
    rw [runTrace_njev]
    simp [initWState]
  · intro s c
    cases c <;>
      simp [IpoptProblemWrapper.runCall, IpoptProblemWrapper.objective,
        IpoptProblemWrapper.gradient, IpoptProblemWrapper.intermediate] <;>
      omega
  · intro cs
    rw [runTrace_nit]
    rfl

/-- C6 witness: after the trace `objective, gradient, objective,
jacobianstructure, intermediate(4)` the counters read
`nfev = 2, njev = 1, nit = 4`. -/
theorem C6_witness :
    ((wrapperOf pBase).runTrace initWState
      [.objectiveC [0], .gradientC [0], .objectiveC [1],
       .jacobianstructureC, .intermediateC 4]).nfev = 2 ∧
    ((wrapperOf pBase).runTrace initWState
      [.objectiveC [0], .gradientC [0], .objectiveC [1],
       .jacobianstructureC, .intermediateC 4]).njev = 1 ∧
    ((wrapperOf pBase).runTrace initWState
      [.objectiveC [0], .gradientC [0], .objectiveC [1],
       .jacobianstructureC, .intermediateC 4]).nit = 4 := by
  have h := C6_counters_amended pBase (wrapperOf pBase) rfl
  exact ⟨h.2.2.2.1 _, h.2.2.2.2.1 _, h.2.2.2.2.2.2 _⟩

/-- C6 counterexample: the claim asserts `nit` is monotonically
non-decreasing across calls, but `intermediate` assigns `nit :=
iter_count`, so calling it with 5 and then 3 makes `nit` decrease from 5
to 3. -/
theorem C6_counterexample :
    (IpoptProblemWrapper.init pBase).map (fun w =>
      let s1 := w.runCall initWState (.intermediateC 5)
      let s2 := w.runCall s1 (.intermediateC 3)
      decide (s1.nit ≤ s2.nit)) = .ok false := rfl

/-! ## C7 -/

theorem init_gradient_fd (p : WrapperParams) (w : IpoptProblemWrapper)
    (hw : IpoptProblemWrapper.init p = .ok w) (hj : p.jac = .noneV)
    (s : WState) (x : List ℚ) :
    w.gradient s x =
      (approx_fprime x (fun y => extractObjVal (p.fun_ y p.args p.kwargs)) p.eps,
       { s with njev := s.njev + 1 }) := by
  obtain ⟨_, hjac⟩ := init_jac_none p w hw hj
  obtain ⟨hargs, hkw, _⟩ := init_eq p w hw
  unfold IpoptProblemWrapper.gradient
  rw [hjac, hargs, hkw]

theorem afpLoop_count (x : List ℚ) (f : List ℚ → Except String ℚ)
    (eps f0 : ℚ) :
    ∀ (is : List Nat) (vs : List ℚ),
    (afpLoop x f eps f0 is).1 = .ok vs →
    (afpLoop x f eps f0 is).2 = is.length := by
  intro is
  induction is with
  | nil => intro vs _; rfl
  | cons i is ih =>
    intro vs
    simp only [afpLoop]
    cases hf : f (addEps x i eps) with
    | error e => intro h; simp at h
    | ok fi =>
      cases hl : afpLoop x f eps f0 is with
      | mk r n =>
        cases r with
        | error e => intro h; simp at h
        | ok vs' =>
          intro _
          have hn := ih vs' (by rw [hl])
          rw [hl] at hn
          have hn' : n = is.length := hn
          change n + 1 = (i :: is).length
          simp only [List.length_cons]
          omega

theorem afpLoop_forward (x : List ℚ) (f : List ℚ → Except String ℚ)
    (eps f0 : ℚ) :
    ∀ (is : List Nat) (vs : List ℚ),
    (afpLoop x f eps f0 is).1 = .ok vs →
    vs.length = is.length ∧
    ∀ k, k < is.length →
      ∃ fi, f (addEps x (is.getD k 0) eps) = .ok fi ∧
        vs.getD k 0 = (fi - f0) / eps := by
  intro is
  induction is with
  | nil =>
    intro vs h
    simp only [afpLoop] at h
    cases h
    exact ⟨rfl, fun k hk => absurd hk (by simp)⟩
  | cons i is ih =>
    intro vs
    simp only [afpLoop]
    cases hf : f (addEps x i eps) with
    | error e => intro h; simp at h
    | ok fi =>
      cases hl : afpLoop x f eps f0 is with
      | mk r n =>
        cases r with
        | error e => intro h; simp at h
        | ok vs' =>
          intro h
          have h' : Except.ok ((fi - f0) / eps :: vs') = Except.ok vs := h
          have hv : (fi - f0) / eps :: vs' = vs := by injection h'
          subst hv
          obtain ⟨hlen, hfwd⟩ := ih vs' (by rw [hl])
          refine ⟨by simp [hlen], ?_⟩
          intro k hk
          cases k with
          | zero => exact ⟨fi, hf, rfl⟩
          | succ k' =>
            simp only [List.getD_cons_succ]
            exact hfwd k' (by simpa using hk)

theorem approx_fprime_forward (x : List ℚ) (f : List ℚ → Except String ℚ)
    (eps : ℚ) (g : List ℚ) (h : approx_fprime x f eps = .ok g) :
    ∃ f0, f x = .ok f0 ∧ g.length = x.length ∧
    ∀ i, i < x.length →
      ∃ fi, f (addEps x i eps) = .ok fi ∧ g.getD i 0 = (fi - f0) / eps := by
  revert h
  unfold approx_fprime approx_fprime_counted
  cases hfx : f x with
  | error e => intro h; simp at h
  | ok f0 =>
    intro h
    have h2 : (afpLoop x f eps f0 (List.range x.length)).1 = Except.ok g := h
    obtain ⟨hlen, hfwd⟩ := afpLoop_forward x f eps f0 (List.range x.length) g h2
    refine ⟨f0, rfl, by simpa using hlen, ?_⟩
    intro i hi
    have hstep := hfwd i (by simpa using hi)
    rwa [List.getD_eq_getElem _ _ (by simpa using hi), List.getElem_range]
      at hstep

theorem approx_fprime_counted_calls (x : List ℚ)
    (f : List ℚ → Except String ℚ) (eps : ℚ) (g : List ℚ)
    (h : approx_fprime x f eps = .ok g) :
    (approx_fprime_counted x f eps).2 = x.length + 1 := by
  revert h
  unfold approx_fprime approx_fprime_counted
  cases hfx : f x with
  | error e => intro h; simp at h
  | ok f0 =>
    intro h
    have h2 : (afpLoop x f eps f0 (List.range x.length)).1 = Except.ok g := h
    have hn := afpLoop_count x f eps f0 (List.range x.length) g h2
    change (afpLoop x f eps f0 (List.range x.length)).2 + 1 = x.length + 1
    rw [hn]
    simp

/-- C7 (amended): When no gradient callable is supplied (`jac=None`),
`gradient(x)` returns scipy's forward finite-difference approximation of
the objective with fixed step `eps` (entry `i` equals
`(f(x + eps e_i) - f(x)) / eps`), and the `x.length + 1` objective
evaluations the approximator performs internally go through the raw
objective callable, bypassing the `objective` method: they are NOT
reflected in `nfev`, which is left unchanged (only `njev` increments by
one). -/
theorem C7_fd_gradient_uncounted (p : WrapperParams) (w : IpoptProblemWrapper)
    (hw : IpoptProblemWrapper.init p = .ok w) (hj : p.jac = .noneV)
    (s : WState) (x : List ℚ) :
    w.gradient s x =
      (approx_fprime x (fun y => extractObjVal (p.fun_ y p.args p.kwargs)) p.eps,
       { s with njev := s.njev + 1 }) ∧
    (w.gradient s x).2.nfev = s.nfev ∧
    (∀ g, approx_fprime x (fun y => extractObjVal (p.fun_ y p.args p.kwargs))
        p.eps = .ok g →
      (approx_fprime_counted x
        (fun y => extractObjVal (p.fun_ y p.args p.kwargs)) p.eps).2 =
        x.length + 1 ∧
      ∃ f0, extractObjVal (p.fun_ x p.args p.kwargs) = .ok f0 ∧
        g.length = x.length ∧
        ∀ i, i < x.length →
          ∃ fi, extractObjVal (p.fun_ (addEps x i p.eps) p.args p.kwargs) =
            .ok fi ∧ g.getD i 0 = (fi - f0) / p.eps) := by
  refine ⟨init_gradient_fd p w hw hj s x, ?_, ?_⟩
  · rw [init_gradient_fd p w hw hj s x]
  · intro g hg
    exact ⟨approx_fprime_counted_calls _ _ _ _ hg,
      approx_fprime_forward _ _ _ _ hg⟩

/-- C7 witness: the adapter over `pC7` (`jac=None`) at `x = [1]`: the
finite-difference gradient of `f(x) = x_0` is `[1]`, `njev` becomes 1,
`nfev` stays 0, and the approximator evaluated the raw objective twice. -/
theorem C7_witness :
    (wrapperOf pC7).gradient initWState [1] =
      (.ok [1], { nfev := 0, njev := 1, nit := 0 }) ∧
    ((wrapperOf pC7).gradient initWState [1]).2.nfev = 0 ∧
    (approx_fprime_counted [1]
      (fun y => extractObjVal (pC7.fun_ y pC7.args pC7.kwargs)) pC7.eps).2 = 2 := by
  have h := C7_fd_gradient_uncounted pC7 (wrapperOf pC7) rfl rfl initWState [1]
  have hg : approx_fprime [1]
      (fun y => extractObjVal (pC7.fun_ y pC7.args pC7.kwargs)) pC7.eps =
      .ok [1] := by
    norm_num [approx_fprime, approx_fprime_counted, afpLoop, addEps, pC7,
      pBase, exObj, extractObjVal, eps8, List.range_succ]
  refine ⟨?_, h.2.1, ((h.2.2 [1] hg).1).trans (by rfl)⟩
  rw [h.1, hg]
  rfl

/-- C7 counterexample: the claim asserts the approximator's internal
objective evaluations are counted in `nfev`; but after one `gradient([0])`
call on the `jac=None` adapter, `nfev` is still 0 even though the
approximator evaluated the objective `0+1+1 = 2` times, and `¬ (2 ≤ 0)`. -/
theorem C7_counterexample :
    (IpoptProblemWrapper.init pC7).map (fun w =>
      decide ((w.gradient initWState [0]).2.nfev = 0)) = .ok true ∧
    (approx_fprime_counted [0]
      (fun y => extractObjVal (pC7.fun_ y pC7.args pC7.kwargs)) pC7.eps).2 = 2 ∧
    ¬ ((2 : Nat) ≤ 0) := ⟨rfl, rfl, by decide⟩

/-! ## C8 -/

theorem _wrap_fun_apply {α : Type} (f : List ℚ → List ℚ → Kw → α) (kwargs : Kw)
    (x a : List ℚ) : _wrap_fun f kwargs x a = f x a kwargs := by
  unfold _wrap_fun
  by_cases hk : kwargs.isEmpty = true
  · rw [if_pos hk, List.isEmpty_iff.mp hk]
  · rw [if_neg hk]

/-- C8: With a non-`None` method name, the driver wraps every callable
(objective, gradient, Hessian, Hessian-vector-product, and each
constraint's function and Jacobian) so that the stored keyword arguments
are baked in, hands off to the generic minimizer, and returns its result
unchanged; on this path the only performed step is the generic-minimizer
call — the Problem Adapter is never constructed, the native solver handle
is never constructed, and no structure builder is invoked. -/
theorem C8_delegation (mkS : ProblemDef → NativeSolver)
    (sm : MinimizeCall → OptimizeResult) (p : DriverParams) (m : String)
    (hm : p.method = some m) :
    minimize_ipopt mkS sm p =
      (.ok (sm (wrappedMinimizeCall p m)), [.calledGenericMinimize]) ∧
    (∀ x a, (wrappedMinimizeCall p m).fun_ x a = p.fun_ x a p.kwargs) ∧
    (wrappedMinimizeCall p m).method = m ∧
    (wrappedMinimizeCall p m).constraints = p.constraints.map wrapConstraint ∧
    (∀ (c : ConstraintDict) (x a : List ℚ),
      (wrapConstraint c).cfun x a = c.cfun x a c.kwargs) ∧
    (∀ h, p.hess = some h → ∃ wh, (wrappedMinimizeCall p m).hess = some wh ∧
      ∀ x a, wh x a = h x a p.kwargs) ∧
    (∀ hp, p.hessp = some hp → ∃ whp,
      (wrappedMinimizeCall p m).hessp = some whp ∧
      ∀ x a, whp x a = hp x a p.kwargs) ∧
    (∀ g, p.jac = .call g → ∃ wg, (wrappedMinimizeCall p m).jac = .call wg ∧
      ∀ x a, wg x a = g x a p.kwargs) ∧
    (∀ (c : ConstraintDict) j, c.jac = .call j →
      ∃ wj, (wrapConstraint c).jac = .call wj ∧
        ∀ x a, wj x a = j x a c.kwargs) ∧
    Event.builtWrapper ∉ (minimize_ipopt mkS sm p).2 ∧
    Event.builtProblem ∉ (minimize_ipopt mkS sm p).2 ∧
    Event.probedStructure ∉ (minimize_ipopt mkS sm p).2 := by
  have hdriver : minimize_ipopt mkS sm p =
      (.ok (sm (wrappedMinimizeCall p m)), [.calledGenericMinimize]) := by
    unfold minimize_ipopt
    rw [hm]
  refine ⟨hdriver, ?_, rfl, rfl, ?_, ?_, ?_, ?_, ?_, ?_, ?_, ?_⟩
  · intro x a
    exact _wrap_fun_apply p.fun_ p.kwargs x a
  · intro c x a
    exact _wrap_fun_apply c.cfun c.kwargs x a
  · intro h hh
    refine ⟨_wrap_fun h p.kwargs, ?_, fun x a => _wrap_fun_apply h p.kwargs x a⟩
    simp only [wrappedMinimizeCall, _wrap_funs, hh]
    rfl
  · intro hp hhp
    refine ⟨_wrap_fun hp p.kwargs, ?_,
      fun x a => _wrap_fun_apply hp p.kwargs x a⟩
    simp only [wrappedMinimizeCall, _wrap_funs, hhp]
    rfl
  · intro g hg
    refine ⟨_wrap_fun g p.kwargs, ?_, fun x a => _wrap_fun_apply g p.kwargs x a⟩
    simp only [wrappedMinimizeCall, _wrap_funs, wrapObjJac, hg]
  · intro c j hj
    refine ⟨_wrap_fun j c.kwargs, ?_, fun x a => _wrap_fun_apply j c.kwargs x a⟩
    simp only [wrapConstraint, wrapConJac, hj]
  · rw [hdriver]
    simp
  · rw [hdriver]
    simp
  · rw [hdriver]
    simp

/-- C8 witness: the driver over `pC8` (`method = SLSQP`, stored keyword
arguments `[("k", 1)]`) delegates to the generic minimizer unchanged and
performs no other step; the wrapped objective bakes the kwargs in. -/
theorem C8_witness :
    minimize_ipopt exMkSolver exSM pC8 =
      (.ok (exSM (wrappedMinimizeCall pC8 "SLSQP")), [.calledGenericMinimize]) ∧
    (wrappedMinimizeCall pC8 "SLSQP").fun_ [9] [] = exObj [9] [] [("k", 1)] ∧
    Event.builtProblem ∉ (minimize_ipopt exMkSolver exSM pC8).2 := by
  have h := C8_delegation exMkSolver exSM pC8 "SLSQP" rfl
  exact ⟨h.1, h.2.1 [9] [], h.2.2.2.2.2.2.2.2.2.2.1⟩

/-! ## C9: dictionary lemmas -/

theorem dget?_cons (p : String × OptVal) (d : OptDict) (k : String) :
    dget? (p :: d) k = if (p.1 == k) = true then some p.2 else dget? d k := by
  by_cases h : (p.1 == k) = true
  · simp [dget?, List.find?_cons, h]
  · have h2 : (p.1 == k) = false := by simpa using h
    simp [dget?, List.find?_cons, h2]

theorem dcontains_cons (p : String × OptVal) (d : OptDict) (k : String) :
    dcontains (p :: d) k = ((p.1 == k) || dcontains d k) := by
  simp [dcontains, List.any_cons]

theorem dget?_isSome_eq_dcontains (d : OptDict) (k : String) :
    (dget? d k).isSome = dcontains d k := by
  induction d with
  | nil => rfl
  | cons p d ih =>
    rw [dget?_cons, dcontains_cons]
    by_cases h : (p.1 == k) = true
    · simp [h]
    · have h2 : (p.1 == k) = false := by simpa using h
      simp [h2, ih]

theorem dget?_none_of_not_dcontains (d : OptDict) (k : String)
    (h : dcontains d k = false) : dget? d k = none := by
  have hs := dget?_isSome_eq_dcontains d k
  rw [h] at hs
  exact Option.not_isSome_iff_eq_none.mp (by simp [hs])

theorem dget?_some_of_dcontains (d : OptDict) (k : String)
    (h : dcontains d k = true) : ∃ v, dget? d k = some v := by
  have hs := dget?_isSome_eq_dcontains d k
  rw [h] at hs
  exact Option.isSome_iff_exists.mp hs

theorem dget?_map_set_ne (d : OptDict) (k : String) (v : OptVal) (k2 : String)
    (hk : k2 ≠ k) :
    dget? (d.map (fun p => if p.1 == k then (k, v) else p)) k2 = dget? d k2 := by
  induction d with
  | nil => rfl
  | cons p d ih =>
    by_cases h : (p.1 == k) = true
    · have hpk : p.1 = k := by simpa using h
      have h2 : (k == k2) = false := by simp [Ne.symm hk]
      have h3 : (p.1 == k2) = false := by simp [hpk, Ne.symm hk]
      simp only [List.map_cons, if_pos h, dget?_cons, h2, h3]
      simpa using ih
    · simp only [List.map_cons, if_neg h, dget?_cons]
      rw [ih]

theorem dget?_map_set_self (d : OptDict) (k : String) (v : OptVal)
    (h : dcontains d k = true) :
    dget? (d.map (fun p => if p.1 == k then (k, v) else p)) k = some v := by
  induction d with
  | nil => exact absurd h (by simp [dcontains])
  | cons p d ih =>
    by_cases hp : (p.1 == k) = true
    · simp only [List.map_cons, if_pos hp, dget?_cons]
      simp
    · have hp2 : (p.1 == k) = false := by simpa using hp
      rw [dcontains_cons, hp2, Bool.false_or] at h
      simp only [List.map_cons, if_neg hp, dget?_cons]
      exact ih h

theorem dcontains_map_set (d : OptDict) (k : String) (v : OptVal)
    (k2 : String) :
    dcontains (d.map (fun p => if p.1 == k then (k, v) else p)) k2 =
      dcontains d k2 := by
  induction d with
  | nil => rfl
  | cons p d ih =>
    by_cases hp : (p.1 == k) = true
    · have hpk : p.1 = k := by simpa using hp
      simp only [List.map_cons, if_pos hp, dcontains_cons, hpk, ih]
      simp
    · simp only [List.map_cons, if_neg hp, dcontains_cons, ih]

theorem dget?_append_right (d1 d2 : OptDict) (k : String)
    (h : dcontains d1 k = false) : dget? (d1 ++ d2) k = dget? d2 k := by
  induction d1 with
  | nil => rfl
  | cons p d ih =>
    rw [dcontains_cons] at h
    have hp : (p.1 == k) = false := by
      cases hb : (p.1 == k) <;> simp [hb] at h ⊢
    have hd : dcontains d k = false := by
      cases hb : dcontains d k <;> simp [hb, hp] at h ⊢
    rw [List.cons_append, dget?_cons, hp]
    simp [ih hd]

theorem dget?_append_left (d1 d2 : OptDict) (k : String) (v : OptVal)
    (h : dget? d1 k = some v) : dget? (d1 ++ d2) k = some v := by
  induction d1 with
  | nil => exact absurd h (by simp [dget?])
  | cons p d ih =>
    rw [dget?_cons] at h
    rw [List.cons_append, dget?_cons]
    by_cases hp : (p.1 == k) = true
    · rw [if_pos hp] at h ⊢
      exact h
    · rw [if_neg hp] at h ⊢
      exact ih h

theorem dcontains_append (d1 d2 : OptDict) (k : String) :
    dcontains (d1 ++ d2) k = (dcontains d1 k || dcontains d2 k) := by
  simp [dcontains, List.any_append]

theorem dget?_dset_self (d : OptDict) (k : String) (v : OptVal) :
    dget? (dset d k v) k = some v := by
  unfold dset
  by_cases hc : dcontains d k = true
  · rw [if_pos hc]
    exact dget?_map_set_self d k v hc
  · have hc2 : dcontains d k = false := by simpa using hc
    rw [if_neg hc, dget?_append_right d _ k hc2]
    simp [dget?_cons]

theorem dget?_dset_ne (d : OptDict) (k : String) (v : OptVal) (k2 : String)
    (hk : k2 ≠ k) : dget? (dset d k v) k2 = dget? d k2 := by
  unfold dset
  by_cases hc : dcontains d k = true
  · rw [if_pos hc]
    exact dget?_map_set_ne d k v k2 hk
  · rw [if_neg hc]
    by_cases hc2 : dcontains d k2 = true
    · obtain ⟨w, hw⟩ := dget?_some_of_dcontains d k2 hc2
      rw [dget?_append_left d _ k2 w hw, hw]
    · have hc3 : dcontains d k2 = false := by simpa using hc2
      rw [dget?_append_right d _ k2 hc3, dget?_none_of_not_dcontains d k2 hc3]
      simp [dget?_cons, Ne.symm hk, dget?]

theorem dcontains_dset (d : OptDict) (k : String) (v : OptVal) (k2 : String) :
    dcontains (dset d k v) k2 = (dcontains d k2 || (k == k2)) := by
  unfold dset
  by_cases hc : dcontains d k = true
  · rw [if_pos hc, dcontains_map_set]
    by_cases hkk : (k == k2) = true
    · have hkk2 : k = k2 := by simpa using hkk
      subst hkk2
      simp [hc]
    · have hkk2 : (k == k2) = false := by simpa using hkk
      simp [hkk2]
  · rw [if_neg hc, dcontains_append]
    simp [dcontains]

theorem dcontains_dpop_self (d : OptDict) (k : String) :
    dcontains (dpop d k) k = false := by
  rw [show dcontains (dpop d k) k = ((dpop d k).any (fun p => p.1 == k)) from rfl,
    List.any_eq_false]
  intro p hp
  rw [dpop, List.mem_filter] at hp
  simpa using hp.2

theorem dcontains_dpop_ne (d : OptDict) (k k2 : String) (hk : k2 ≠ k) :
    dcontains (dpop d k) k2 = dcontains d k2 := by
  induction d with
  | nil => rfl
  | cons p d ih =>
    by_cases hp : (p.1 == k) = true
    · have hpk : p.1 = k := by simpa using hp
      have h2 : (p.1 == k2) = false := by simp [hpk, Ne.symm hk]
      simp only [dpop, List.filter_cons, hp, Bool.not_true, dcontains_cons, h2,
        Bool.false_or]
      exact ih
    · have hp2 : (p.1 == k) = false := by simpa using hp
      simp only [dpop, List.filter_cons, hp2, Bool.not_false, dcontains_cons]
      rw [← ih]
      rfl

theorem dget?_dpop_ne (d : OptDict) (k k2 : String) (hk : k2 ≠ k) :
    dget? (dpop d k) k2 = dget? d k2 := by
  induction d with
  | nil => rfl
  | cons p d ih =>
    by_cases hp : (p.1 == k) = true
    · have hpk : p.1 = k := by simpa using hp
      have h2 : (p.1 == k2) = false := by simp [hpk, Ne.symm hk]
      have hstep : dpop (p :: d) k = dpop d k := by
        simp [dpop, List.filter_cons, hp]
      rw [hstep, ih, dget?_cons, h2]
      simp
    · have hp2 : (p.1 == k) = false := by simpa using hp
      have hstep : dpop (p :: d) k = p :: dpop d k := by
        simp [dpop, List.filter_cons, hp2]
      rw [hstep, dget?_cons, dget?_cons, ih]

/-! ## C9: replace_option, setDefault and translateOptions lemmas -/

theorem replace_option_of_absent (o : OptDict) (old new : String)
    (h : dcontains o old = false) : replace_option o old new = o := by
  simp [replace_option, h]

theorem replace_option_of_target_present (o : OptDict) (old new : String)
    (h : dcontains o new = true) : replace_option o old new = o := by
  unfold replace_option
  by_cases h2 : dcontains o old = true
  · rw [if_pos h2, if_pos h]
  · rw [if_neg h2]

theorem replace_option_renames (o : OptDict) (old new : String) (v : OptVal)
    (h1 : dcontains o old = true) (h2 : dcontains o new = false)
    (hv : dget? o old = some v) :
    dget? (replace_option o old new) new = some v ∧
    dcontains (replace_option o old new) old = false := by
  have hne : new ≠ old := by
    intro he
    rw [he, h1] at h2
    cases h2
  have hr : replace_option o old new = dset (dpop o old) new v := by
    simp [replace_option, h1, h2, hv]
  refine ⟨?_, ?_⟩
  · rw [hr]
    exact dget?_dset_self (dpop o old) new v
  · rw [hr, dcontains_dset, dcontains_dpop_self]
    simp [hne]

theorem dcontains_replace_option_ne (o : OptDict) (old new k : String)
    (h1 : k ≠ old) (h2 : k ≠ new) :
    dcontains (replace_option o old new) k = dcontains o k := by
  unfold replace_option
  by_cases ho : dcontains o old = true
  · rw [if_pos ho]
    by_cases hn : dcontains o new = true
    · rw [if_pos hn]
    · rw [if_neg hn]
      obtain ⟨v, hv⟩ := dget?_some_of_dcontains o old ho
      simp only [hv]
      rw [dcontains_dset, dcontains_dpop_ne o old k h1]
      simp [Ne.symm h2]
  · rw [if_neg ho]

theorem dget?_replace_option_ne (o : OptDict) (old new k : String)
    (h1 : k ≠ old) (h2 : k ≠ new) :
    dget? (replace_option o old new) k = dget? o k := by
  unfold replace_option
  by_cases ho : dcontains o old = true
  · rw [if_pos ho]
    by_cases hn : dcontains o new = true
    · rw [if_pos hn]
    · rw [if_neg hn]
      obtain ⟨v, hv⟩ := dget?_some_of_dcontains o old ho
      simp only [hv]
      rw [dget?_dset_ne _ _ _ _ h2, dget?_dpop_ne o old k h1]
  · rw [if_neg ho]

theorem setDefault_of_present (o : OptDict) (key : String) (v : OptVal)
    (h : dcontains o key = true) : setDefault o key v = o := by
  simp [setDefault, h]

theorem dget?_setDefault_self_absent (o : OptDict) (key : String) (v : OptVal)
    (h : dcontains o key = false) : dget? (setDefault o key v) key = some v := by
  rw [setDefault, if_neg (by simp [h])]
  exact dget?_dset_self o key v

theorem dget?_setDefault_ne (o : OptDict) (key : String) (v : OptVal)
    (k : String) (h : k ≠ key) :
    dget? (setDefault o key v) k = dget? o k := by
  rw [setDefault]
  by_cases hc : dcontains o key = true
  · rw [if_pos hc]
  · rw [if_neg hc]
    exact dget?_dset_ne o key v k h

theorem dcontains_setDefault_ne (o : OptDict) (key : String) (v : OptVal)
    (k : String) (h : (key == k) = false) :
    dcontains (setDefault o key v) k = dcontains o k := by
  rw [setDefault]
  by_cases hc : dcontains o key = true
  · rw [if_pos hc]
  · rw [if_neg hc, dcontains_dset, h, Bool.or_false]

theorem translateOptions_eq (o : OptDict) (tol : Option ℚ) (hN hpN : Bool) :
    translateOptions o tol hN hpN =
      optionDefaults (replace_option (replace_option o "disp" "print_level")
        "maxiter" "max_iter") tol hN hpN := rfl

theorem hessStep_frame (o3 : OptDict) (hN hpN : Bool) (k : String)
    (h4 : ("hessian_approximation" == k) = false) :
    dget? (if dcontains o3 "hessian_approximation" then o3
           else if hN && hpN then
             dset o3 "hessian_approximation" (OptVal.str "limited-memory")
           else o3) k = dget? o3 k ∧
    dcontains (if dcontains o3 "hessian_approximation" then o3
           else if hN && hpN then
             dset o3 "hessian_approximation" (OptVal.str "limited-memory")
           else o3) k = dcontains o3 k := by
  have hne : k ≠ "hessian_approximation" := by
    intro he
    rw [he] at h4
    simp at h4
  by_cases hc : dcontains o3 "hessian_approximation" = true
  · simp [hc]
  · have hc2 : dcontains o3 "hessian_approximation" = false := by simpa using hc
    by_cases hb : (hN && hpN) = true
    · rw [if_neg (by simp [hc2]), if_pos hb]
      refine ⟨dget?_dset_ne o3 _ _ k hne, ?_⟩
      rw [dcontains_dset]
      simp [h4]
    · have hb2 : (hN && hpN) = false := by simpa using hb
      rw [if_neg (by simp [hc2]), if_neg (by simp [hb2])]
      exact ⟨rfl, rfl⟩

theorem optionDefaults_frame (r : OptDict) (tol : Option ℚ) (hN hpN : Bool)
    (k : String)
    (h1 : ("print_level" == k) = false) (h2 : ("tol" == k) = false)
    (h3 : ("mu_strategy" == k) = false)
    (h4 : ("hessian_approximation" == k) = false) :
    dget? (optionDefaults r tol hN hpN) k = dget? r k ∧
    dcontains (optionDefaults r tol hN hpN) k = dcontains r k := by
  have hne1 : k ≠ "print_level" := by
    intro he
    rw [he] at h1
    simp at h1
  have hne2 : k ≠ "tol" := by
    intro he
    rw [he] at h2
    simp at h2
  have hne3 : k ≠ "mu_strategy" := by
    intro he
    rw [he] at h3
    simp at h3
  have hh := hessStep_frame
    (setDefault (setDefault (setDefault r "print_level" (OptVal.num 0)) "tol"
      (OptVal.num (tolOrDefault tol))) "mu_strategy" (OptVal.str "adaptive"))
    hN hpN k h4
  have hu : optionDefaults r tol hN hpN =
      (if dcontains (setDefault (setDefault (setDefault r "print_level"
          (OptVal.num 0)) "tol" (OptVal.num (tolOrDefault tol))) "mu_strategy"
          (OptVal.str "adaptive")) "hessian_approximation" then
        setDefault (setDefault (setDefault r "print_level" (OptVal.num 0))
          "tol" (OptVal.num (tolOrDefault tol))) "mu_strategy"
          (OptVal.str "adaptive")
      else if hN && hpN then
        dset (setDefault (setDefault (setDefault r "print_level"
          (OptVal.num 0)) "tol" (OptVal.num (tolOrDefault tol))) "mu_strategy"
          (OptVal.str "adaptive")) "hessian_approximation"
          (OptVal.str "limited-memory")
      else
        setDefault (setDefault (setDefault r "print_level" (OptVal.num 0))
          "tol" (OptVal.num (tolOrDefault tol))) "mu_strategy"
          (OptVal.str "adaptive")) := rfl
  rw [hu]
  refine ⟨?_, ?_⟩
  · rw [hh.1, dget?_setDefault_ne _ _ _ _ hne3, dget?_setDefault_ne _ _ _ _ hne2,
      dget?_setDefault_ne _ _ _ _ hne1]
  · rw [hh.2, dcontains_setDefault_ne _ _ _ _ h3,
      dcontains_setDefault_ne _ _ _ _ h2, dcontains_setDefault_ne _ _ _ _ h1]

theorem optionDefaults_print_level_present (r : OptDict) (tol : Option ℚ)
    (hN hpN : Bool) (h : dcontains r "print_level" = true) :
    dget? (optionDefaults r tol hN hpN) "print_level" =
      dget? r "print_level" := by
  have hu : optionDefaults r tol hN hpN =
      (if dcontains (setDefault (setDefault (setDefault r "print_level"
          (OptVal.num 0)) "tol" (OptVal.num (tolOrDefault tol))) "mu_strategy"
          (OptVal.str "adaptive")) "hessian_approximation" then
        setDefault (setDefault (setDefault r "print_level" (OptVal.num 0))
          "tol" (OptVal.num (tolOrDefault tol))) "mu_strategy"
          (OptVal.str "adaptive")
      else if hN && hpN then
        dset (setDefault (setDefault (setDefault r "print_level"
          (OptVal.num 0)) "tol" (OptVal.num (tolOrDefault tol))) "mu_strategy"
          (OptVal.str "adaptive")) "hessian_approximation"
          (OptVal.str "limited-memory")
      else
        setDefault (setDefault (setDefault r "print_level" (OptVal.num 0))
          "tol" (OptVal.num (tolOrDefault tol))) "mu_strategy"
          (OptVal.str "adaptive")) := rfl
  rw [hu, setDefault_of_present r _ _ h,
    (hessStep_frame (setDefault (setDefault r "tol"
      (OptVal.num (tolOrDefault tol))) "mu_strategy" (OptVal.str "adaptive"))
      hN hpN "print_level" rfl).1,
    dget?_setDefault_ne _ _ _ _ (show ("print_level" : String) ≠ "mu_strategy"
      by decide),
    dget?_setDefault_ne _ _ _ _ (show ("print_level" : String) ≠ "tol"
      by decide)]

theorem optionDefaults_values (r : OptDict) (tol : Option ℚ) (hN hpN : Bool)
    (hpl : dcontains r "print_level" = false)
    (ht : dcontains r "tol" = false)
    (hmu : dcontains r "mu_strategy" = false)
    (hha : dcontains r "hessian_approximation" = false) :
    dget? (optionDefaults r tol hN hpN) "print_level" = some (OptVal.num 0) ∧
    dget? (optionDefaults r tol hN hpN) "tol" =
      some (OptVal.num (tolOrDefault tol)) ∧
    dget? (optionDefaults r tol hN hpN) "mu_strategy" =
      some (OptVal.str "adaptive") ∧
    dcontains (optionDefaults r tol hN hpN) "hessian_approximation" =
      (hN && hpN) := by
  have g1 := dget?_setDefault_self_absent r "print_level" (OptVal.num 0) hpl
  have c1t := (dcontains_setDefault_ne r "print_level" (OptVal.num 0) "tol"
    rfl).trans ht
  have c1mu := (dcontains_setDefault_ne r "print_level" (OptVal.num 0)
    "mu_strategy" rfl).trans hmu
  have c1ha := (dcontains_setDefault_ne r "print_level" (OptVal.num 0)
    "hessian_approximation" rfl).trans hha
  have g2 := dget?_setDefault_self_absent
    (setDefault r "print_level" (OptVal.num 0)) "tol"
    (OptVal.num (tolOrDefault tol)) c1t
  have g1b := (dget?_setDefault_ne (setDefault r "print_level" (OptVal.num 0))
    "tol" (OptVal.num (tolOrDefault tol)) "print_level" (by decide)).trans g1
  have c2mu := (dcontains_setDefault_ne
    (setDefault r "print_level" (OptVal.num 0)) "tol"
    (OptVal.num (tolOrDefault tol)) "mu_strategy" rfl).trans c1mu
  have c2ha := (dcontains_setDefault_ne
    (setDefault r "print_level" (OptVal.num 0)) "tol"
    (OptVal.num (tolOrDefault tol)) "hessian_approximation" rfl).trans c1ha
  have g3 := dget?_setDefault_self_absent
    (setDefault (setDefault r "print_level" (OptVal.num 0)) "tol"
      (OptVal.num (tolOrDefault tol))) "mu_strategy" (OptVal.str "adaptive")
    c2mu
  have g2b := (dget?_setDefault_ne
    (setDefault (setDefault r "print_level" (OptVal.num 0)) "tol"
      (OptVal.num (tolOrDefault tol))) "mu_strategy" (OptVal.str "adaptive")
    "tol" (by decide)).trans g2
  have g1c := (dget?_setDefault_ne
    (setDefault (setDefault r "print_level" (OptVal.num 0)) "tol"
      (OptVal.num (tolOrDefault tol))) "mu_strategy" (OptVal.str "adaptive")
    "print_level" (by decide)).trans g1b
  have c3ha := (dcontains_setDefault_ne
    (setDefault (setDefault r "print_level" (OptVal.num 0)) "tol"
      (OptVal.num (tolOrDefault tol))) "mu_strategy" (OptVal.str "adaptive")
    "hessian_approximation" rfl).trans c2ha
  have hu : optionDefaults r tol hN hpN =
      (if dcontains (setDefault (setDefault (setDefault r "print_level"
          (OptVal.num 0)) "tol" (OptVal.num (tolOrDefault tol))) "mu_strategy"
          (OptVal.str "adaptive")) "hessian_approximation" then
        setDefault (setDefault (setDefault r "print_level" (OptVal.num 0))
          "tol" (OptVal.num (tolOrDefault tol))) "mu_strategy"
          (OptVal.str "adaptive")
      else if hN && hpN then
        dset (setDefault (setDefault (setDefault r "print_level"
          (OptVal.num 0)) "tol" (OptVal.num (tolOrDefault tol))) "mu_strategy"
          (OptVal.str "adaptive")) "hessian_approximation"
          (OptVal.str "limited-memory")
      else
        setDefault (setDefault (setDefault r "print_level" (OptVal.num 0))
          "tol" (OptVal.num (tolOrDefault tol))) "mu_strategy"
          (OptVal.str "adaptive")) := rfl
  rw [hu, if_neg (by simp [c3ha])]
  by_cases hb : (hN && hpN) = true
  · rw [if_pos hb]
    refine ⟨?_, ?_, ?_, ?_⟩
    · exact (dget?_dset_ne _ "hessian_approximation"
        (OptVal.str "limited-memory") "print_level" (by decide)).trans g1c
    · exact (dget?_dset_ne _ "hessian_approximation"
        (OptVal.str "limited-memory") "tol" (by decide)).trans g2b
    · exact (dget?_dset_ne _ "hessian_approximation"
        (OptVal.str "limited-memory") "mu_strategy" (by decide)).trans g3
    · rw [dcontains_dset, c3ha, hb]
      rfl
  · have hb2 : (hN && hpN) = false := by simpa using hb
    rw [if_neg hb]
    exact ⟨g1c, g2b, g3, c3ha.trans hb2.symm⟩

theorem applyOptions_first_error (add : String → OptVal → Except String Unit)
    (d1 d2 : OptDict) (k : String) (v : OptVal) (e : String)
    (h1 : ∀ q ∈ d1, add q.1 q.2 = .ok ())
    (h2 : add k v = .error e) :
    applyOptions add (d1 ++ (k, v) :: d2) = .error (invalidOptionMsg k v e) := by
  revert h1
  induction d1 with
  | nil =>
    intro _
    simp only [List.nil_append, applyOptions, h2]
  | cons p d ih =>
    intro h1
    obtain ⟨k1, v1⟩ := p
    have hp := h1 (k1, v1) (by simp)
    rw [List.cons_append]
    simp only [applyOptions, hp]
    exact ih (fun q hq => h1 q (List.mem_cons_of_mem _ hq))

theorem minimize_ipopt_option_error (mk : ProblemDef → NativeSolver)
    (sm : MinimizeCall → OptimizeResult) (p : DriverParams)
    (cl cu : List ℚ) (dims : List Nat) (sj : List Bool) (rr cc : List Nat)
    (E : String)
    (hm : p.method = none)
    (hb : get_constraint_bounds p.constraints p.x0 INF19 = .ok (cl, cu))
    (hd : get_constraint_dimensions p.constraints p.x0 = .ok dims)
    (hs : _get_sparse_jacobian_structure p.constraints p.x0 = .ok (sj, rr, cc))
    (hw : ∃ w, IpoptProblemWrapper.init ⟨p.fun_, p.args, p.kwargs, p.jac,
        p.hess, p.hessp, p.constraints, eps8, dims, sj, rr, cc⟩ = .ok w)
    (ha : applyOptions (mk ⟨p.x0.length, cl.length, (get_bounds p.bounds).1,
        (get_bounds p.bounds).2, cl, cu⟩).add_option
        (translateOptions (p.options.getD []) p.tol p.hess.isNone
          p.hessp.isNone) = .error E) :
    minimize_ipopt mk sm p =
      (.error E, [.gotBounds, .computedConstraintBounds,
        .computedConstraintDims, .probedStructure, .builtWrapper,
        .builtProblem]) := by
  obtain ⟨w, hi⟩ := hw
  unfold minimize_ipopt
  rw [hm]
  simp only [hb, hd, hs, hi, ha]

/-- C9: on the native path the driver translates options before applying
them.  `disp` is renamed to `print_level` and `maxiter` to `max_iter`
exactly when the target key is absent (a dict already holding the target
key is returned unchanged by the rename); absent keys are defaulted —
`print_level` to 0, `tol` to the `tol` argument when truthy and `1e-8`
otherwise, `mu_strategy` to `adaptive`, and `hessian_approximation` to
`limited-memory` exactly when neither a Hessian nor a
Hessian-vector-product was supplied; each resulting option is applied in
dict order, and the first option the solver rejects aborts the driver with
a `TypeError` embedding the option name, the value and the original
solver message. -/
theorem C9_option_translation :
    (∀ (o : OptDict) (old new : String), dcontains o new = true →
        replace_option o old new = o) ∧
    (∀ (o : OptDict) (tol : Option ℚ) (hN hpN : Bool) (v : OptVal),
        dcontains o "disp" = true → dcontains o "print_level" = false →
        dget? o "disp" = some v →
        dget? (translateOptions o tol hN hpN) "print_level" = some v ∧
        dcontains (translateOptions o tol hN hpN) "disp" = false) ∧
    (∀ (o : OptDict) (tol : Option ℚ) (hN hpN : Bool) (v : OptVal),
        dcontains o "maxiter" = true → dcontains o "max_iter" = false →
        dget? o "maxiter" = some v →
        dget? (translateOptions o tol hN hpN) "max_iter" = some v ∧
        dcontains (translateOptions o tol hN hpN) "maxiter" = false) ∧
    (∀ (o : OptDict) (tol : Option ℚ) (hN hpN : Bool),
        dcontains o "disp" = false → dcontains o "print_level" = false →
        dcontains o "tol" = false → dcontains o "mu_strategy" = false →
        dcontains o "hessian_approximation" = false →
        dget? (translateOptions o tol hN hpN) "print_level" =
          some (OptVal.num 0) ∧
        dget? (translateOptions o tol hN hpN) "tol" =
          some (OptVal.num (tolOrDefault tol)) ∧
        dget? (translateOptions o tol hN hpN) "mu_strategy" =
          some (OptVal.str "adaptive") ∧
        dcontains (translateOptions o tol hN hpN) "hessian_approximation" =
          (hN && hpN)) ∧
    (∀ (add : String → OptVal → Except String Unit) (d1 d2 : OptDict)
        (k : String) (v : OptVal) (e : String),
        (∀ q ∈ d1, add q.1 q.2 = .ok ()) → add k v = .error e →
        applyOptions add (d1 ++ (k, v) :: d2) =
          .error (invalidOptionMsg k v e)) ∧
    (∀ (mk : ProblemDef → NativeSolver) (sm : MinimizeCall → OptimizeResult)
        (p : DriverParams) (cl cu : List ℚ) (dims : List Nat)
        (sj : List Bool) (rr cc : List Nat) (E : String),
        p.method = none →
        get_constraint_bounds p.constraints p.x0 INF19 = .ok (cl, cu) →
        get_constraint_dimensions p.constraints p.x0 = .ok dims →
        _get_sparse_jacobian_structure p.constraints p.x0 =
          .ok (sj, rr, cc) →
        (∃ w, IpoptProblemWrapper.init ⟨p.fun_, p.args, p.kwargs, p.jac,
          p.hess, p.hessp, p.constraints, eps8, dims, sj, rr, cc⟩ =
            .ok w) →
        applyOptions (mk ⟨p.x0.length, cl.length, (get_bounds p.bounds).1,
            (get_bounds p.bounds).2, cl, cu⟩).add_option
          (translateOptions (p.options.getD []) p.tol p.hess.isNone
            p.hessp.isNone) = .error E →
        minimize_ipopt mk sm p =
          (.error E, [.gotBounds, .computedConstraintBounds,
            .computedConstraintDims, .probedStructure, .builtWrapper,
            .builtProblem])) := by
  refine ⟨replace_option_of_target_present, ?_, ?_, ?_,
    applyOptions_first_error, minimize_ipopt_option_error⟩
  · intro o tol hN hpN v hd hpn hv
    have h1 := replace_option_renames o "disp" "print_level" v hd hpn hv
    have hc : dcontains (replace_option o "disp" "print_level")
        "print_level" = true := by
      rw [← dget?_isSome_eq_dcontains, h1.1]
      rfl
    have h2g : dget? (replace_option (replace_option o "disp" "print_level")
        "maxiter" "max_iter") "print_level" = some v := by
      rw [dget?_replace_option_ne _ _ _ _ (by decide) (by decide)]
      exact h1.1
    have h2c : dcontains (replace_option
        (replace_option o "disp" "print_level") "maxiter" "max_iter")
        "print_level" = true := by
      rw [dcontains_replace_option_ne _ _ _ _ (by decide) (by decide)]
      exact hc
    have h2d : dcontains (replace_option
        (replace_option o "disp" "print_level") "maxiter" "max_iter")
        "disp" = false := by
      rw [dcontains_replace_option_ne _ _ _ _ (by decide) (by decide)]
      exact h1.2
    constructor
    · rw [translateOptions_eq, optionDefaults_print_level_present _ _ _ _ h2c]
      exact h2g
    · rw [translateOptions_eq,
        (optionDefaults_frame _ tol hN hpN "disp" rfl rfl rfl rfl).2]
      exact h2d
  · intro o tol hN hpN v hmx hmi hv
    have h0g : dget? (replace_option o "disp" "print_level") "maxiter" =
        some v := by
      rw [dget?_replace_option_ne _ _ _ _ (by decide) (by decide)]
      exact hv
    have h0c : dcontains (replace_option o "disp" "print_level") "maxiter" =
        true := by
      rw [dcontains_replace_option_ne _ _ _ _ (by decide) (by decide)]
      exact hmx
    have h0t : dcontains (replace_option o "disp" "print_level") "max_iter" =
        false := by
      rw [dcontains_replace_option_ne _ _ _ _ (by decide) (by decide)]
      exact hmi
    have h1 := replace_option_renames _ "maxiter" "max_iter" v h0c h0t h0g
    constructor
    · rw [translateOptions_eq,
        (optionDefaults_frame _ tol hN hpN "max_iter" rfl rfl rfl rfl).1]
      exact h1.1
    · rw [translateOptions_eq,
        (optionDefaults_frame _ tol hN hpN "maxiter" rfl rfl rfl rfl).2]
      exact h1.2
  · intro o tol hN hpN hd hpl ht hmu hha
    have e1 : replace_option o "disp" "print_level" = o :=
      replace_option_of_absent o _ _ hd
    have hplr : dcontains (replace_option
        (replace_option o "disp" "print_level") "maxiter" "max_iter")
        "print_level" = false := by
      rw [e1, dcontains_replace_option_ne _ _ _ _ (by decide) (by decide)]
      exact hpl
    have htr : dcontains (replace_option
        (replace_option o "disp" "print_level") "maxiter" "max_iter")
        "tol" = false := by
      rw [e1, dcontains_replace_option_ne _ _ _ _ (by decide) (by decide)]
      exact ht
    have hmur : dcontains (replace_option
        (replace_option o "disp" "print_level") "maxiter" "max_iter")
        "mu_strategy" = false := by
      rw [e1, dcontains_replace_option_ne _ _ _ _ (by decide) (by decide)]
      exact hmu
    have hhar : dcontains (replace_option
        (replace_option o "disp" "print_level") "maxiter" "max_iter")
        "hessian_approximation" = false := by
      rw [e1, dcontains_replace_option_ne _ _ _ _ (by decide) (by decide)]
      exact hha
    have hv := optionDefaults_values (replace_option
      (replace_option o "disp" "print_level") "maxiter" "max_iter")
      tol hN hpN hplr htr hmur hhar
    rw [translateOptions_eq o tol hN hpN]
    exact hv

/-- C9 witness: a dict already holding `print_level` survives the `disp`
rename unchanged; `disp` and `maxiter` alone are renamed with their
values; the empty dict gets all four defaults (`hessian_approximation`
only when both Hessian flags are `none`); the reject-solver oracle turns
the first rejected option into the exact wrapped `TypeError` message; the
driver over `pC9` aborts with that message after building the wrapper and
the problem handle. -/
theorem C9_witness :
    replace_option [("disp", OptVal.num 1), ("print_level", OptVal.num 2)]
        "disp" "print_level" =
      [("disp", OptVal.num 1), ("print_level", OptVal.num 2)] ∧
    dget? (translateOptions [("disp", OptVal.num 5)] none true true)
        "print_level" = some (OptVal.num 5) ∧
    dget? (translateOptions [("maxiter", OptVal.num 7)] none true true)
        "max_iter" = some (OptVal.num 7) ∧
    dget? (translateOptions [] none true false) "tol" =
      some (OptVal.num (tolOrDefault none)) ∧
    dcontains (translateOptions [] none true false)
        "hessian_approximation" = (true && false) ∧
    applyOptions exRejectSolver.add_option
        ([("ok", OptVal.num 1)] ++ ("bad", OptVal.str "x") :: []) =
      .error (invalidOptionMsg "bad" (OptVal.str "x") "eek") ∧
    minimize_ipopt exMkRejectSolver exSM pC9 =
      (.error (invalidOptionMsg "bad" (OptVal.str "x") "eek"),
       [.gotBounds, .computedConstraintBounds, .computedConstraintDims,
        .probedStructure, .builtWrapper, .builtProblem]) := by
  refine ⟨?_, ?_, ?_, ?_, ?_, ?_, ?_⟩
  · exact C9_option_translation.1
      [("disp", OptVal.num 1), ("print_level", OptVal.num 2)]
      "disp" "print_level" rfl
  · exact (C9_option_translation.2.1 [("disp", OptVal.num 5)] none true true
      (OptVal.num 5) rfl rfl rfl).1
  · exact (C9_option_translation.2.2.1 [("maxiter", OptVal.num 7)] none true
      true (OptVal.num 7) rfl rfl rfl).1
  · exact (C9_option_translation.2.2.2.1 [] none true false
      rfl rfl rfl rfl rfl).2.1
  · exact (C9_option_translation.2.2.2.1 [] none true false
      rfl rfl rfl rfl rfl).2.2.2
  · exact C9_option_translation.2.2.2.2.1 exRejectSolver.add_option
      [("ok", OptVal.num 1)] [] "bad" (OptVal.str "x") "eek"
      (by
        intro q hq
        rw [List.mem_singleton] at hq
        subst hq
        rfl) rfl
  · exact C9_option_translation.2.2.2.2.2 exMkRejectSolver exSM pC9
      [] [] [] [] [] [] (invalidOptionMsg "bad" (OptVal.str "x") "eek")
      rfl rfl rfl rfl ⟨_, rfl⟩ rfl

/-- C9 counterexample: the claim's unconditional rename and fixed `1e-8`
default both fail.  With both `disp` and `print_level` present the dict
keeps `disp` and `print_level` keeps its own value; with a truthy `tol`
argument the `tol` default is that argument, not `1e-8`. -/
theorem C9_counterexample :
    dcontains (translateOptions [("disp", OptVal.num 1),
        ("print_level", OptVal.num 2)] none true true) "disp" = true ∧
    dget? (translateOptions [("disp", OptVal.num 1),
        ("print_level", OptVal.num 2)] none true true) "print_level" =
      some (OptVal.num 2) ∧
    dget? (translateOptions [] (some 3) true true) "tol" =
      some (OptVal.num (tolOrDefault (some 3))) ∧
    tolOrDefault (some 3) ≠ eps8 := by
  refine ⟨rfl, rfl, rfl, ?_⟩
  show (if (3 : ℚ) = 0 then eps8 else 3) ≠ eps8
  rw [if_neg (by norm_num)]
  norm_num [eps8]

/-! ## C10: a boolean False jac entry -/

theorem processCons_false_jac (objHess : Option (List ℚ → List ℚ → Kw → Mat))
    (eps : ℚ) (pre post : List ConstraintDict) (c : ConstraintDict)
    (hc : c.jac = .falseV)
    (hpre1 : ∀ d ∈ pre, d.jac ≠ .falseV)
    (hpre2 : ∀ d ∈ pre, hessMismatch objHess d.hess = false) :
    processCons objHess eps (pre ++ c :: post) = .error jacBoolMsg := by
  induction pre with
  | nil =>
    rw [List.nil_append]
    simp only [processCons, hc]
  | cons d ds ih =>
    have hd1 := hpre1 d (List.mem_cons_self _ _)
    have hm : ¬ hessMismatch objHess d.hess = true := by
      rw [hpre2 d (List.mem_cons_self _ _)]
      decide
    have hrest := ih (fun q hq => hpre1 q (List.mem_cons_of_mem _ hq))
      (fun q hq => hpre2 q (List.mem_cons_of_mem _ hq))
    rw [List.cons_append]
    cases hdj : d.jac with
    | falseV => exact absurd hdj hd1
    | absent => simp only [processCons, hdj, if_neg hm, hrest]
    | noneV => simp only [processCons, hdj, if_neg hm, hrest]
    | trueV => simp only [processCons, hdj, if_neg hm, hrest]
    | call j => simp only [processCons, hdj, if_neg hm, hrest]

theorem init_false_jac (p : WrapperParams) (pre post : List ConstraintDict)
    (c : ConstraintDict)
    (hsplit : p.constraints = pre ++ c :: post)
    (hc : c.jac = .falseV) (hp : p.hessp = none) (hj : p.jac ≠ .falseV)
    (hpre1 : ∀ d ∈ pre, d.jac ≠ .falseV)
    (hpre2 : ∀ d ∈ pre, hessMismatch p.hess d.hess = false) :
    IpoptProblemWrapper.init p = .error jacBoolMsg := by
  obtain ⟨fj, hfj⟩ := resolveObjFunJac_ok p hj
  obtain ⟨f, j⟩ := fj
  have herr := processCons_false_jac p.hess p.eps pre post c hc hpre1 hpre2
  rw [← hsplit] at herr
  simp only [IpoptProblemWrapper.init, hp, hfj, herr]

/-- C10: a constraint whose `jac` entry is the boolean `False` is accepted
by none of the `__init__` branches, so adapter construction raises
`NotImplementedError` (`jac has to be bool or a function`) whenever such a
constraint appears anywhere in the list (with the earlier constraints
passing the `jac` and Hessian checks); yet the structure probe treats a
`False` `jac` exactly like an absent one, so the end-to-end driver on the
native path fails at adapter construction only after the bounds,
dimensions and structure probes have all run — the returned event list
stops at `probedStructure` and never reaches `builtWrapper`. -/
theorem C10_false_jac_rejected :
    (∀ (p : WrapperParams) (pre post : List ConstraintDict)
        (c : ConstraintDict),
        p.constraints = pre ++ c :: post → c.jac = .falseV →
        p.hessp = none → p.jac ≠ .falseV →
        (∀ d ∈ pre, d.jac ≠ .falseV) →
        (∀ d ∈ pre, hessMismatch p.hess d.hess = false) →
        IpoptProblemWrapper.init p = .error jacBoolMsg) ∧
    (∀ (c : ConstraintDict) (x0 : List ℚ),
        probeCon { c with jac := .falseV } x0 =
          probeCon { c with jac := .absent } x0) ∧
    (∀ (mk : ProblemDef → NativeSolver) (sm : MinimizeCall → OptimizeResult)
        (p : DriverParams) (cl cu : List ℚ) (dims : List Nat)
        (sj : List Bool) (rr cc : List Nat) (pre post : List ConstraintDict)
        (c : ConstraintDict),
        p.method = none →
        get_constraint_bounds p.constraints p.x0 INF19 = .ok (cl, cu) →
        get_constraint_dimensions p.constraints p.x0 = .ok dims →
        _get_sparse_jacobian_structure p.constraints p.x0 =
          .ok (sj, rr, cc) →
        p.constraints = pre ++ c :: post → c.jac = .falseV →
        p.hessp = none → p.jac ≠ .falseV →
        (∀ d ∈ pre, d.jac ≠ .falseV) →
        (∀ d ∈ pre, hessMismatch p.hess d.hess = false) →
        minimize_ipopt mk sm p =
          (.error jacBoolMsg,
           [.gotBounds, .computedConstraintBounds, .computedConstraintDims,
            .probedStructure])) := by
  refine ⟨init_false_jac, fun c x0 => rfl, ?_⟩
  intro mk sm p cl cu dims sj rr cc pre post c hm hb hd hs hsplit hc hp hj
    hpre1 hpre2
  have herr : IpoptProblemWrapper.init ⟨p.fun_, p.args, p.kwargs, p.jac,
      p.hess, p.hessp, p.constraints, eps8, dims, sj, rr, cc⟩ =
      .error jacBoolMsg :=
    init_false_jac _ pre post c hsplit hc hp hj hpre1 hpre2
  unfold minimize_ipopt
  rw [hm]
  simp only [hb, hd, hs, herr]

/-- C10 witness: the wrapper over `exConFalse` (a constraint with
`jac=False`) is rejected with the exact message; the probe of that
constraint coincides with the probe of its `jac`-absent variant; the
driver over `pC10` fails with that message after exactly the four probe
steps. -/
theorem C10_witness :
    IpoptProblemWrapper.init { pBase with constraints := [exConFalse] } =
      .error jacBoolMsg ∧
    probeCon { exConFalse with jac := .falseV } [1] =
      probeCon { exConFalse with jac := .absent } [1] ∧
    minimize_ipopt exMkSolver exSM pC10 =
      (.error jacBoolMsg,
       [.gotBounds, .computedConstraintBounds, .computedConstraintDims,
        .probedStructure]) := by
  refine ⟨?_, C10_false_jac_rejected.2.1 exConFalse [1], ?_⟩
  · exact C10_false_jac_rejected.1 { pBase with constraints := [exConFalse] }
      [] [] exConFalse rfl rfl rfl (fun h => ObjJac.noConfusion h)
      (fun d hd => absurd hd (by simp)) (fun d hd => absurd hd (by simp))
  · exact C10_false_jac_rejected.2.2 exMkSolver exSM pC10 [0] [0] [1]
      [false] [0] [0] [] [] exConFalse rfl rfl rfl rfl rfl rfl rfl
      (fun h => ObjJac.noConfusion h)
      (fun d hd => absurd hd (by simp)) (fun d hd => absurd hd (by simp))

end ScipyInterface
